import Mathlib

/-!
# Verification of the jukebox controller (PowerOlive/opts)

Shallow embedding of

* `arduino/src/command_accumulator.h` : the command framer `CommandAccumulator<T_buf_size>`;
* `raspi/src/main.cpp` : the playback cursor (`get_track`, `cursor_bound_wrap`,
  `get_album_name`, `get_track_name`, `handle_control_next`, `handle_control_prev`), the
  media catalog builder (`filename_supported`, `scan_directory`), the disappeared-track test
  of `refresh_track`, and the mount handling (`handle_changed_partitions`,
  `scan_current_mount`, `force_start_at_cursor`, `refresh_track`) on an explicit state.

Conventions.

* A `char` is a natural number (its byte value); `'\n'` is 10, `'\r'` is 13, backspace is 127.
* The template parameter `T_buf_size` is an explicit argument `T`.
* `int` cursor indices are `Int`; container sizes are `Nat`, and the cast `(int)v.size()` is the
  inclusion of `Nat` in `Int` (sizes of in-memory catalogs are far below `2^31`).
* An element access `v[i]` outside `0 <= i < v.size()` is undefined behaviour in C++; functions
  that perform such an access return `none` there.
-/

set_option autoImplicit false

namespace Opts

/-! ## Command framer: `command_accumulator.h` -/

/-- The fields of `struct CommandAccumulator` (lines 6-9): the byte buffer, the write index and
the two flags. -/
structure CommandAccumulator where
  buffer : List Nat
  next_i : Nat
  overflow : Bool
  ready : Bool
deriving DecidableEq, Repr

/-- The method `reset()` (lines 16-22): `memset(buffer, 0, T_buf_size)`, then the index and
both flags are cleared. The constructor calls it, so this is also the fresh accumulator. -/
def CommandAccumulator.reset (T : Nat) : CommandAccumulator :=
  { buffer := List.replicate T 0, next_i := 0, overflow := false, ready := false }

/-- The test `c == '\n' || c == '\r'` of line 41. -/
def is_terminator (c : Nat) : Bool := c == 10 || c == 13

/-- The method `put_char(c)` (lines 24-59). The result is the state afterwards and the returned
`bool`. -/
def CommandAccumulator.put_char (T : Nat) (self : CommandAccumulator) (c : Nat) :
    CommandAccumulator × Bool :=
  -- if(ready){ reset(); }
  let s := if self.ready then CommandAccumulator.reset T else self
  if c == 127 then
    if s.next_i != 0 then
      -- next_i--; buffer[next_i] = 0; overflow = false;
      ({ s with next_i := s.next_i - 1, buffer := s.buffer.set (s.next_i - 1) 0,
                overflow := false }, false)
    else (s, false)
  else if c == 10 || c == 13 then
    if s.overflow then (CommandAccumulator.reset T, false)
    else if s.next_i == 0 then (s, false)
    else ({ s with ready := true }, true)
  else if s.next_i == T then ({ s with overflow := true }, false)
  else
    -- buffer[next_i++] = c;
    ({ s with buffer := s.buffer.set s.next_i c, next_i := s.next_i + 1 }, false)

/-- The method `command()` (lines 72-75) returns the address of `buffer`; its callers read it as
a NUL-terminated string. The string is the bytes before the first zero byte of the buffer; when
the `T_buf_size` bytes of the buffer hold no zero byte the read runs past the end of the array
(`none`). -/
def CommandAccumulator.command (self : CommandAccumulator) : Option (List Nat) :=
  if 0 ∈ self.buffer then some (self.buffer.takeWhile (fun b => b != 0)) else none

/-- Successive `put_char` calls on the bytes of a sequence, as the loop of `read` (lines 61-70)
and the callers of the framer issue them: the final state and the list of returned values. -/
def CommandAccumulator.feed (T : Nat) :
    CommandAccumulator → List Nat → CommandAccumulator × List Bool
  | s, [] => (s, [])
  | s, c :: cs =>
    let r := CommandAccumulator.put_char T s c
    let q := CommandAccumulator.feed T r.1 cs
    (q.1, r.2 :: q.2)

/-! ## Playback cursor: `main.cpp` lines 47-213 and 351-367 -/

/-- The type `struct Track` (lines 47-55). -/
structure Track where
  path : String
  display_name : String
deriving DecidableEq, Repr

/-- The default-constructed `Track()`: both strings empty. -/
def Track.empty : Track := { path := "", display_name := "" }

/-- The type `struct Album` (lines 57-61). -/
structure Album where
  name : String
  tracks : List Track
deriving DecidableEq, Repr

/-- The type `struct MediaContent` (lines 63-66). -/
structure MediaContent where
  albums : List Album
deriving DecidableEq, Repr

/-- The type `struct PlayCursor` (lines 70-75). The `double` field `time_pos` is only copied
and assigned the constant 0 by the functions embedded here; it is a rational number. -/
structure PlayCursor where
  album_i : Int
  track_i : Int
  time_pos : ℚ
deriving DecidableEq, Repr

/-- The element access `v[i]` of a `std::vector` with an `int` index: defined only for
`0 <= i < v.size()`; `none` stands for the out-of-range access. -/
def elem_at {α : Type} (v : List α) (i : Int) : Option α :=
  if 0 ≤ i then v[i.toNat]? else none

/-- The function `get_track` (lines 136-148). -/
def get_track (mc : MediaContent) (cursor : PlayCursor) : Option Track :=
  if cursor.album_i ≥ (mc.albums.length : Int) then some Track.empty
  else
    match elem_at mc.albums cursor.album_i with
    | none => none
    | some album =>
      if cursor.track_i ≥ (album.tracks.length : Int) then some Track.empty
      else elem_at album.tracks cursor.track_i

/-- The function `cursor_bound_wrap` (lines 150-171); the cursor passed by reference is
returned. -/
def cursor_bound_wrap (mc : MediaContent) (cursor : PlayCursor) : Option PlayCursor :=
  if mc.albums.isEmpty then some cursor
  else
    -- if(cursor.album_i < 0) cursor.album_i = mc.albums.size() - 1;
    let a1 : Int := if cursor.album_i < 0 then (mc.albums.length : Int) - 1 else cursor.album_i
    -- if(cursor.album_i >= (int)mc.albums.size()) cursor.album_i = 0;
    let a2 : Int := if a1 ≥ (mc.albums.length : Int) then 0 else a1
    match elem_at mc.albums a2 with
    | none => none
    | some album =>
      if cursor.track_i < 0 then
        let a3 : Int := a2 - 1
        let a4 : Int := if a3 < 0 then (mc.albums.length : Int) - 1 else a3
        match elem_at mc.albums a4 with
        | none => none
        | some album2 =>
          some { cursor with album_i := a4, track_i := (album2.tracks.length : Int) - 1 }
      else if cursor.track_i ≥ (album.tracks.length : Int) then
        let a3 : Int := a2 + 1
        let a4 : Int := if a3 ≥ (mc.albums.length : Int) then 0 else a3
        some { cursor with track_i := 0, album_i := a4 }
      else some { cursor with album_i := a2 }

/-- The cursor invariant of the data model: `0 <= album_i < len(albums)` and
`0 <= track_i < len(albums[album_i].tracks)` ("in-range cursor"). -/
def cursor_in_range (mc : MediaContent) (cursor : PlayCursor) : Prop :=
  0 ≤ cursor.album_i ∧ cursor.album_i < (mc.albums.length : Int) ∧
    match elem_at mc.albums cursor.album_i with
    | some album => 0 ≤ cursor.track_i ∧ cursor.track_i < (album.tracks.length : Int)
    | none => False

instance (mc : MediaContent) (cursor : PlayCursor) : Decidable (cursor_in_range mc cursor) := by
  unfold cursor_in_range
  cases elem_at mc.albums cursor.album_i <;> infer_instance

/-- The function `get_album_name` (lines 173-181). -/
def get_album_name (mc : MediaContent) (cursor : PlayCursor) : Option String :=
  if cursor.album_i ≥ (mc.albums.length : Int) then some "ERR:AOVF"
  else
    match elem_at mc.albums cursor.album_i with
    | none => none
    | some album => some album.name

/-- The function `get_track_name` (lines 183-195). -/
def get_track_name (mc : MediaContent) (cursor : PlayCursor) : Option String :=
  if cursor.album_i ≥ (mc.albums.length : Int) then some "ERR:AOVF"
  else
    match elem_at mc.albums cursor.album_i with
    | none => none
    | some album =>
      if cursor.track_i ≥ (album.tracks.length : Int) then some "ERR:TOVF"
      else (elem_at album.tracks cursor.track_i).map (fun t => t.display_name)

/-- The function `get_total_tracks` (lines 207-213). -/
def get_total_tracks (mc : MediaContent) : Nat :=
  mc.albums.foldl (fun total a => total + a.tracks.length) 0

/-- The cursor update of `handle_control_next` (lines 353-355), also performed by the idle
branch of `handle_mpv` (lines 592-594): `track_i++`, `time_pos = 0`, `cursor_bound_wrap`. -/
def handle_control_next (mc : MediaContent) (cursor : PlayCursor) : Option PlayCursor :=
  cursor_bound_wrap mc { cursor with track_i := cursor.track_i + 1, time_pos := 0 }

/-- The cursor update of `handle_control_prev` (lines 362-364): `track_i--`, `time_pos = 0`,
`cursor_bound_wrap`. -/
def handle_control_prev (mc : MediaContent) (cursor : PlayCursor) : Option PlayCursor :=
  cursor_bound_wrap mc { cursor with track_i := cursor.track_i - 1, time_pos := 0 }

/-! ## Media catalog builder: `main.cpp` lines 623-683 -/

/-- The static set `supported_file_extensions` (lines 628-638), in source order (the source
lists some extensions twice; only membership is used). -/
def supported_file_extensions : List String :=
  ["3ga", "aac", "aif", "aifc", "aiff", "amr", "au", "aup", "caf", "flac",
   "gsm", "iff", "kar", "m4a", "m4p", "m4r", "mid", "midi", "mmf", "mp2",
   "mp3", "mpga", "ogg", "oma", "opus", "qcp", "ra", "ram", "wav", "wma",
   "xspf", "3g2", "3gp", "3gpp", "asf", "avi", "divx", "f4v", "flv",
   "h264", "ifo", "m2ts", "m4v", "mkv", "mod", "mov", "mp4", "mpeg",
   "mpg", "mswmm", "mts", "mxf", "ogv", "rm", "srt", "swf", "ts", "vep",
   "vob", "webm", "wlmp", "wmv", "aac", "cue", "d64", "flac", "it",
   "m3u", "m4a", "mid", "mod", "mp3", "mp4", "ogg", "pls", "rar", "s3m",
   "sfv", "sid", "spc", "swf", "t64", "wav", "xd", "xm"]

/-- The C library `tolower` in the "C" locale: the letters `A`..`Z` are mapped to `a`..`z`,
every other character is unchanged. -/
def tolower (c : Char) : Char :=
  if 65 ≤ c.toNat ∧ c.toNat ≤ 90 then Char.ofNat (c.toNat + 32) else c

/-- The loop of lines 642-649 with `i + 1 = k`: the characters of `name` are inspected from
index `k - 1` down to 0; at the first `'.'` found the text behind it is lower-cased and the
loop is left; when the index falls below 0, `ext` is still empty. -/
def extension_loop (name : List Char) : Nat → List Char
  | 0 => []
  | k + 1 =>
    if name[k]? = some '.' then (name.drop (k + 1)).map tolower
    else extension_loop name k

/-- The function `filename_supported` (lines 623-651). -/
def filename_supported (name : String) : Bool :=
  supported_file_extensions.contains (String.mk (extension_loop name.data name.data.length))

/-- An entry that `DirLister::get_next` reports: a regular file (`FS_FILE`) or a directory
(`FS_DIR`) with its own ordered listing. -/
inductive DirEntry where
  | file (fname : String)
  | dir (fname : String) (listing : List DirEntry)

/-- The C library call `snprintf(buf, size, fmt)` with NO argument after the format, as on
line 672, where the file name itself is the format string. Ordinary characters are copied,
`%%` writes one `%`, and any other `%` starts a conversion specification whose argument was
not passed, which is undefined behaviour (`none`). At most `size - 1` characters are kept. -/
def snprintf_format : List Char → Option (List Char)
  | [] => some []
  | '%' :: '%' :: rest => (snprintf_format rest).map (fun r => '%' :: r)
  | '%' :: _ => none
  | c :: rest => (snprintf_format rest).map (fun r => c :: r)

/-- The two statements of lines 672-673 that fill `stripped`: `snprintf` into the 100-byte
buffer with the file name as format, then `strip_file_extension`, a function of this
repository that is not part of the sources at hand and is passed as `strip`. -/
def stripped_name (strip : String → String) (fname : String) : Option String :=
  (snprintf_format fname.data).map (fun r => strip (String.mk (r.take 99)))

/-- The test `fname[0] == '.'` of line 665. -/
def is_hidden (fname : String) : Bool := fname.data.head? == some '.'

/-- The end of `scan_directory` (lines 681-682) after its loop has produced the tracks of
`root_album` and the updated `result_albums` (or has run into undefined behaviour):
`if(!root_album.tracks.empty()) result_albums.push_back(root_album)`. -/
def push_root_album (root_name : String) :
    Option (List Track × List Album) → Option (List Album)
  | none => none
  | some (tracks, result) =>
    if tracks.isEmpty then some result
    else some (result ++ [{ name := root_name, tracks := tracks }])

mutual
/-- The `for(;;)` loop of `scan_directory` (lines 660-679) over the entries that
`dl.get_next` still has to report, with the tracks of `root_album` and `result_albums` as loop
state. `none` when the scan runs into undefined behaviour. -/
def scan_entries (strip : String → String) :
    List DirEntry → String → List Track → List Album → Option (List Track × List Album)
  | [], _, tracks, result => some (tracks, result)
  | entry :: rest, path, tracks, result =>
    match scan_entry strip entry path tracks result with
    | none => none
    | some (tracks2, result2) => scan_entries strip rest path tracks2 result2
/-- The body of the loop (lines 665-678) for one entry. The recursive call
`scan_directory(fname, path+"/"+fname, result_albums)` of line 677 is the loop on the listing of
the subdirectory, started with no tracks, followed by `push_root_album` (see
`scan_directory`). -/
def scan_entry (strip : String → String) :
    DirEntry → String → List Track → List Album → Option (List Track × List Album)
  | DirEntry.file fname, path, tracks, result =>
    if is_hidden fname then some (tracks, result)
    else if !filename_supported fname then some (tracks, result)
    else
      match stripped_name strip fname with
      | none => none
      | some stripped =>
        some (tracks ++ [{ path := path ++ "/" ++ fname, display_name := stripped }], result)
  | DirEntry.dir fname listing, path, tracks, result =>
    if is_hidden fname then some (tracks, result)
    else
      match push_root_album fname
          (scan_entries strip listing (path ++ "/" ++ fname) [] result) with
      | none => none
      | some result2 => some (tracks, result2)
end

/-- The function `scan_directory` (lines 653-683). The directory at `path` is given by its
listing; `result_albums`, passed by reference, is returned. -/
def scan_directory (strip : String → String) (root_name path : String)
    (listing : List DirEntry) (result_albums : List Album) : Option (List Album) :=
  push_root_album root_name (scan_entries strip listing path [] result_albums)


/-! ### The catalog as the specification describes it

The following definitions are not translated from the code: they spell out the words of the
specification of the catalog scan, to be compared with `scan_directory`. -/

/-- A directory of the tree: its name (for the root: the label of the caller), its path and
its listing. -/
structure ScannedDir where
  name : String
  path : String
  listing : List DirEntry

/-- Specification: the directly contained qualifying files of a listing, in listing order: the
files whose name does not start with `'.'` and passes `filename_supported`. -/
def qualifying_files : List DirEntry → List String
  | [] => []
  | DirEntry.file fname :: rest =>
    if !is_hidden fname && filename_supported fname then fname :: qualifying_files rest
    else qualifying_files rest
  | DirEntry.dir _ _ :: rest => qualifying_files rest

mutual
/-- Specification: the directories below the entries of a listing that are reachable without
passing through an entry whose name starts with `'.'`, subdirectories before their parent. -/
def visible_dirs_below : List DirEntry → String → List ScannedDir
  | [], _ => []
  | entry :: rest, path => visible_dirs_of entry path ++ visible_dirs_below rest path
/-- Specification: the reachable directories at and below one entry. -/
def visible_dirs_of : DirEntry → String → List ScannedDir
  | DirEntry.file _, _ => []
  | DirEntry.dir fname listing, path =>
    if is_hidden fname then []
    else visible_dirs_below listing (path ++ "/" ++ fname)
      ++ [{ name := fname, path := path ++ "/" ++ fname, listing := listing }]
end

/-- Specification: all reachable directories of the tree rooted at `path`, the root last. -/
def visible_dirs (root_name path : String) (listing : List DirEntry) : List ScannedDir :=
  visible_dirs_below listing path ++ [{ name := root_name, path := path, listing := listing }]

/-- Specification: the Track of a qualifying file: its path is the directory path, `"/"` and
the file name; its display name is the file name cut to 99 bytes and passed through
`strip_file_extension`. -/
def track_of (strip : String → String) (path fname : String) : Track :=
  { path := path ++ "/" ++ fname, display_name := strip (String.mk (fname.data.take 99)) }

/-- Specification: the Album of a directory: named after it, with the Tracks of its directly
contained qualifying files in listing order. -/
def album_of (strip : String → String) (d : ScannedDir) : Album :=
  { name := d.name, tracks := (qualifying_files d.listing).map (track_of strip d.path) }

/-- Specification: one Album for each of the given directories that directly contains at
least one qualifying file. -/
def albums_of (strip : String → String) (ds : List ScannedDir) : List Album :=
  (ds.filter (fun d => !(qualifying_files d.listing).isEmpty)).map (album_of strip)

/-- The file names on which line 672 is well defined: no `'%'` in the name, so that
`snprintf` sees no conversion specification. -/
def format_safe (fnames : List String) : Prop := ∀ f ∈ fnames, '%' ∉ f.data


/-! ### The file-type filter as the specification describes it -/

/-- Specification: the text after the last `'.'` of a name (the whole name when it holds no
`'.'`). -/
def text_after_last_dot (name : List Char) : List Char :=
  (name.reverse.takeWhile (fun c => c != '.')).reverse

/-- Specification: a name is accepted when it contains a `'.'` and the text after its last
`'.'`, converted to lower case, is a member of the extension allow-list. -/
def extension_listed (name : String) : Prop :=
  '.' ∈ name.data ∧
    String.mk ((text_after_last_dot name.data).map tolower) ∈ supported_file_extensions

/-! ## Application state, track refresh and mount handling: `main.cpp` lines 42-45, 253-338,
351-392, 685-700 and 771-876

The global variables that these functions read and write are the fields of one state record.
Whatever the operating system and the playback engine answer during a call is an argument of
the call (`...Os` records); every answer is arbitrary. A result `none` means that the call does
not hand back a state: the process exits (`check_mpv_error`), an out-of-range access occurs,
or a further rescan is started for which no answers are listed. -/

/-- The global variables `current_mount_device`, `current_mount_path`,
`current_media_content`, `current_cursor`, `last_succesfully_playing_cursor`,
`disappeared_tracks` (lines 42-78) and the static `umount_last_failed_timestamp`
(line 775). -/
structure AppState where
  current_mount_device : String
  current_mount_path : String
  current_media_content : MediaContent
  current_cursor : PlayCursor
  last_succesfully_playing_cursor : PlayCursor
  disappeared_tracks : Finset String
  umount_last_failed_timestamp : Int

/-- The state at program start: no device, no path, empty catalog, cursors at the origin. -/
def AppState.initial : AppState :=
  { current_mount_device := "", current_mount_path := "",
    current_media_content := { albums := [] },
    current_cursor := { album_i := 0, track_i := 0, time_pos := 0 },
    last_succesfully_playing_cursor := { album_i := 0, track_i := 0, time_pos := 0 },
    disappeared_tracks := ∅, umount_last_failed_timestamp := 0 }

/-- The answers that one run of `refresh_track` gets: the `path` property of the playback
engine (`NULL` is `none`), whether the `loadfile` command succeeds (`check_mpv_error` exits
otherwise), and whether `access(track.path, F_OK)` finds the file. -/
structure RefreshOs where
  playing_path : Option String
  loadfile_ok : Bool
  track_exists : Bool

/-- The answers that one run of `scan_current_mount` gets: the albums that `scan_directory`
leaves in the cleared catalog, whether the `loadfile` of `force_start_at_cursor` succeeds, and
the answers for the `refresh_track` that follows. -/
structure ScanOs where
  scanned : List Album
  loadfile_ok : Bool
  refresh : RefreshOs

/-- One line of `/proc/partitions` as the loop of lines 818-875 sees it: the device name in
the fourth column, the answer of `get_device_mountpoint(devname)` and the return code of
`mount`. -/
structure PartitionOs where
  devname : String
  existing_mountpoint : String
  mount_result : Int

/-- The answers that one run of `handle_changed_partitions` gets: `time(0)`,
`check_partition_exists(current_mount_device)`, the return code of `umount`,
`get_device_mountpoint(current_mount_device)`, whether `/proc/partitions` can be read, its
lines, and the answers for the scans that are started. -/
structure ChangedOs where
  now : Int
  partition_exists : Bool
  umount_result : Int
  device_mountpoint : String
  partitions_readable : Bool
  partitions : List PartitionOs
  scans : List ScanOs

/-- The test of lines 329-330 on the disappeared set and the catalog:
`disappeared_tracks.size() > get_total_tracks(current_media_content) / 10 ||
disappeared_tracks.size() >= 10`. -/
def rescan_due (disappeared_tracks : Finset String) (mc : MediaContent) : Bool :=
  decide (disappeared_tracks.card > get_total_tracks mc / 10) ||
    decide (disappeared_tracks.card ≥ 10)

/-- The function `refresh_track` (lines 299-338). Its call of `scan_current_mount` is the
argument `rescan`. The display update of line 302 changes no field of the state. -/
def App.refresh_track (os : RefreshOs) (rescan : AppState → Option AppState)
    (st : AppState) : Option AppState :=
  if st.current_media_content.albums.isEmpty then some st
  else
    match get_track st.current_media_content st.current_cursor with
    | none => none
    | some track =>
      if track.path != "" then
        if os.playing_path.isNone || os.playing_path != some track.path then
          if !os.loadfile_ok then none
          else if !os.track_exists then
            -- disappeared_tracks.insert(track.path);
            let st1 := { st with
              disappeared_tracks := insert track.path st.disappeared_tracks }
            if rescan_due st1.disappeared_tracks st1.current_media_content then rescan st1
            else some st1
          else some st
        else some st
      else some st

/-- The function `force_start_at_cursor` (lines 253-272): the track at the cursor is looked
up and loaded, then `refresh_track` runs. -/
def App.force_start_at_cursor (loadfile_ok : Bool) (os : RefreshOs)
    (rescan : AppState → Option AppState) (st : AppState) : Option AppState :=
  match get_track st.current_media_content st.current_cursor with
  | none => none
  | some _ =>
    if !loadfile_ok then none
    else App.refresh_track os rescan st

/-- The function `scan_current_mount` (lines 685-700), with the answers for this scan and
for the scans nested in it through `refresh_track`. -/
def App.scan_current_mount : List ScanOs → AppState → Option AppState
  | [], _ => none
  | os :: rest, st =>
    App.force_start_at_cursor os.loadfile_ok os.refresh (App.scan_current_mount rest)
      { st with
        disappeared_tracks := ∅,
        current_media_content := { albums := os.scanned },
        current_cursor := st.last_succesfully_playing_cursor }

/-- The test of lines 833-841: some tracked name `s` is the beginning of `devname`. -/
def is_tracked (track_devices : List String) (devname : String) : Bool :=
  track_devices.any (fun s =>
    if devname.data.length < s.data.length then false
    else decide (devname.data.take s.data.length = s.data))

/-- The loop of lines 818-875 of `handle_changed_partitions` over the lines of
`/proc/partitions`. -/
def App.mount_tracked (track_devices : List String) (scans : List ScanOs) :
    List PartitionOs → AppState → Option AppState
  | [], st => some st
  | p :: rest, st =>
    if p.devname == "" then App.mount_tracked track_devices scans rest st
    else if !is_tracked track_devices p.devname then
      App.mount_tracked track_devices scans rest st
    else if p.existing_mountpoint != "" then
      App.scan_current_mount scans
        { st with current_mount_device := p.devname,
                  current_mount_path := p.existing_mountpoint }
    else if p.mount_result == 0 then
      App.scan_current_mount scans
        { st with current_mount_device := p.devname,
                  current_mount_path := "/tmp/__autosoitin_mnt" }
    else App.mount_tracked track_devices scans rest st

/-- The first part of `handle_changed_partitions` (lines 773-800): the mounted device is
given up when its partition is gone and `umount` succeeds, or when it is no longer
mounted. -/
def App.check_mounted (os : ChangedOs) (st : AppState) : AppState :=
  if st.current_mount_device != "" then
    if !os.partition_exists then
      if st.umount_last_failed_timestamp > os.now - 15 then st
      else if os.umount_result == 0 then
        { st with current_mount_device := "", current_mount_path := "",
                  current_media_content := { albums := [] } }
      else { st with umount_last_failed_timestamp := os.now }
    else if os.device_mountpoint == "" then
      { st with current_mount_device := "", current_mount_path := "",
                current_media_content := { albums := [] } }
    else st
  else st

/-- The function `handle_changed_partitions` (lines 771-876) with the tracked device names
`track_devices`. -/
def App.handle_changed_partitions (track_devices : List String) (os : ChangedOs)
    (st : AppState) : Option AppState :=
  if (App.check_mounted os st).current_mount_device != "" then some (App.check_mounted os st)
  else if !os.partitions_readable then some (App.check_mounted os st)
  else App.mount_tracked track_devices os.scans os.partitions (App.check_mounted os st)

/-- A cursor operation or another caller of `refresh_track`, with the answers it gets. -/
inductive Op where
  | changed_partitions (os : ChangedOs)
  | control_next (os : RefreshOs) (scans : List ScanOs)
  | control_prev (os : RefreshOs) (scans : List ScanOs)
  | control_nextalbum (os : RefreshOs) (scans : List ScanOs)
  | control_prevalbum (os : RefreshOs) (scans : List ScanOs)
  | refresh (os : RefreshOs) (scans : List ScanOs)
  | start_at_cursor (loadfile_ok : Bool) (os : RefreshOs) (scans : List ScanOs)
  | set_cursors (current last : PlayCursor)

/-- One operation on the state: `handle_changed_partitions`; `handle_control_next`,
`handle_control_prev`, `handle_control_nextalbum`, `handle_control_prevalbum` (lines 351-392;
the first is also the idle advance of `handle_mpv`); `refresh_track`;
`force_start_at_cursor`; and the assignments to the two cursors made by `load_stuff` and by
the time commit of `handle_mpv`. -/
def App.run_op (track_devices : List String) : Op → AppState → Option AppState
  | Op.changed_partitions os, st => App.handle_changed_partitions track_devices os st
  | Op.control_next os scans, st =>
    match handle_control_next st.current_media_content st.current_cursor with
    | none => none
    | some c => App.refresh_track os (App.scan_current_mount scans)
        { st with current_cursor := c }
  | Op.control_prev os scans, st =>
    match handle_control_prev st.current_media_content st.current_cursor with
    | none => none
    | some c => App.refresh_track os (App.scan_current_mount scans)
        { st with current_cursor := c }
  | Op.control_nextalbum os scans, st =>
    match cursor_bound_wrap st.current_media_content
        { st.current_cursor with
          album_i := st.current_cursor.album_i + 1, track_i := 0, time_pos := 0 } with
    | none => none
    | some c => App.refresh_track os (App.scan_current_mount scans)
        { st with current_cursor := c }
  | Op.control_prevalbum os scans, st =>
    match cursor_bound_wrap st.current_media_content
        { st.current_cursor with
          album_i := st.current_cursor.album_i - 1, track_i := 0, time_pos := 0 } with
    | none => none
    | some c => App.refresh_track os (App.scan_current_mount scans)
        { st with current_cursor := c }
  | Op.refresh os scans, st => App.refresh_track os (App.scan_current_mount scans) st
  | Op.start_at_cursor ok os scans, st =>
    App.force_start_at_cursor ok os (App.scan_current_mount scans) st
  | Op.set_cursors current last, st =>
    some { st with current_cursor := current, last_succesfully_playing_cursor := last }

/-- A sequence of operations from a state. -/
def App.run_ops (track_devices : List String) : List Op → AppState → Option AppState
  | [], st => some st
  | op :: ops, st =>
    match App.run_op track_devices op st with
    | none => none
    | some st2 => App.run_ops track_devices ops st2

/-- The mount-state invariant: the device is empty exactly when the path is, and without a
device the catalog has no albums. -/
def mount_invariant (st : AppState) : Prop :=
  (st.current_mount_device = "" ↔ st.current_mount_path = "") ∧
    (st.current_mount_device = "" → st.current_media_content.albums = [])

/-! ### Playback order -/

/-- The next-track step of `handle_control_next` applied `k` times in a row. -/
def next_iter (mc : MediaContent) : Nat → PlayCursor → Option PlayCursor
  | 0, cursor => some cursor
  | k + 1, cursor => (next_iter mc k cursor).bind (handle_control_next mc)

/-- The number of tracks in the albums before album `a`. -/
def album_offset (mc : MediaContent) (a : Nat) : Nat :=
  ((mc.albums.take a).map (fun album => album.tracks.length)).sum

/-- The position of a cursor in playback order: the number of tracks before it in the
catalog. -/
def cursor_pos (mc : MediaContent) (cursor : PlayCursor) : Nat :=
  album_offset mc cursor.album_i.toNat + cursor.track_i.toNat

/-! ## Lemmas on the command framer -/

namespace CommandAccumulator

theorem feed_append (T : Nat) (xs ys : List Nat) (s : CommandAccumulator) :
    feed T s (xs ++ ys) = ((feed T (feed T s xs).1 ys).1, (feed T s xs).2 ++ (feed T (feed T s xs).1 ys).2) := by
  induction xs generalizing s with
  | nil => simp [feed]
  | cons x xs ih => simp [feed, ih]

theorem feed_length (T : Nat) (xs : List Nat) (s : CommandAccumulator) :
    (feed T s xs).2.length = xs.length := by
  induction xs generalizing s with
  | nil => simp [feed]
  | cons x xs ih => simp [feed, ih]

theorem put_char_terminator_reset (T c : Nat) (hc : is_terminator c = true) :
    put_char T (reset T) c = (reset T, false) := by
  have h : c = 10 ∨ c = 13 := by simpa [is_terminator] using hc
  rcases h with h | h <;> subst h <;> simp [put_char, reset]

theorem feed_terminators_reset (T : Nat) (ts : List Nat)
    (h : ∀ t ∈ ts, is_terminator t = true) :
    feed T (reset T) ts = (reset T, List.replicate ts.length false) := by
  induction ts with
  | nil => simp [feed]
  | cons t ts ih =>
    have ht := h t (by simp)
    have hts : ∀ u ∈ ts, is_terminator u = true := fun u hu => h u (by simp [hu])
    simp [feed, put_char_terminator_reset T t ht, ih hts, List.replicate_succ]

/-- Storing one ordinary byte while there is room. -/
theorem put_char_store (T c : Nat) (pre : List Nat) (h127 : c ≠ 127)
    (ht : is_terminator c = false) (hroom : pre.length < T) :
    put_char T { buffer := pre ++ List.replicate (T - pre.length) 0, next_i := pre.length,
                 overflow := false, ready := false } c
      = ({ buffer := (pre ++ [c]) ++ List.replicate (T - (pre ++ [c]).length) 0,
           next_i := (pre ++ [c]).length, overflow := false, ready := false }, false) := by
  have h10 : c ≠ 10 := by intro h; subst h; simp [is_terminator] at ht
  have h13 : c ≠ 13 := by intro h; subst h; simp [is_terminator] at ht
  have hne : pre.length ≠ T := Nat.ne_of_lt hroom
  obtain ⟨m, hm⟩ : ∃ m, T - pre.length = m + 1 := ⟨T - pre.length - 1, by omega⟩
  have hm2 : T - (pre.length + 1) = m := by omega
  simp [put_char, h127, h10, h13, hne, hm, hm2, List.replicate_succ]

theorem feed_store (T : Nat) (bs pre : List Nat) (h127 : ∀ b ∈ bs, b ≠ 127)
    (ht : ∀ b ∈ bs, is_terminator b = false) (hroom : pre.length + bs.length ≤ T) :
    feed T { buffer := pre ++ List.replicate (T - pre.length) 0, next_i := pre.length,
             overflow := false, ready := false } bs
      = ({ buffer := (pre ++ bs) ++ List.replicate (T - (pre ++ bs).length) 0,
           next_i := (pre ++ bs).length, overflow := false, ready := false },
         List.replicate bs.length false) := by
  induction bs generalizing pre with
  | nil => simp [feed]
  | cons b bs ih =>
    have hb1 := h127 b (by simp)
    have hb2 := ht b (by simp)
    have hroom1 : pre.length < T := by simp at hroom; omega
    have hroom2 : (pre ++ [b]).length + bs.length ≤ T := by simp at hroom ⊢; omega
    have ih2 := ih (pre ++ [b]) (fun x hx => h127 x (by simp [hx]))
      (fun x hx => ht x (by simp [hx])) hroom2
    rw [feed, put_char_store T b pre hb1 hb2 hroom1]
    simp only [ih2]
    simp [List.replicate_succ]

theorem feed_store_reset (T : Nat) (bs : List Nat) (h127 : ∀ b ∈ bs, b ≠ 127)
    (ht : ∀ b ∈ bs, is_terminator b = false) (hroom : bs.length ≤ T) :
    feed T (reset T) bs
      = ({ buffer := bs ++ List.replicate (T - bs.length) 0,
           next_i := bs.length, overflow := false, ready := false },
         List.replicate bs.length false) := by
  have h := feed_store T bs [] h127 ht (by simpa using hroom)
  simpa [reset] using h

theorem command_of_stored (s : List Nat) (m : Nat) (h0 : ∀ b ∈ s, b ≠ 0) (hm : 0 < m)
    (n : Nat) (o r : Bool) :
    command { buffer := s ++ List.replicate m 0, next_i := n, overflow := o, ready := r }
      = some s := by
  obtain ⟨k, rfl⟩ : ∃ k, m = k + 1 := ⟨m - 1, by omega⟩
  have hmem : (0 : Nat) ∈ s ++ List.replicate (k + 1) 0 := by simp
  have htw : (s ++ List.replicate (k + 1) 0).takeWhile (fun b => b != 0) = s := by
    induction s with
    | nil => simp [List.replicate_succ]
    | cons a s ih =>
      have ha : a ≠ 0 := h0 a (by simp)
      have ih2 := ih (fun b hb => h0 b (by simp [hb])) (by simp)
      simp [List.takeWhile_cons, ha, ih2]
  simp only [command, hmem, htw, if_true]

theorem put_char_terminator_ready (T c : Nat) (s : CommandAccumulator)
    (hc : is_terminator c = true) (hr : s.ready = false) (ho : s.overflow = false)
    (hn : s.next_i ≠ 0) :
    put_char T s c = ({ s with ready := true }, true) := by
  have h : c = 10 ∨ c = 13 := by simpa [is_terminator] using hc
  rcases h with h | h <;> subst h <;> simp [put_char, hr, ho, hn]

theorem put_char_terminator_overflow (T c : Nat) (s : CommandAccumulator)
    (hc : is_terminator c = true) (hr : s.ready = false) (ho : s.overflow = true) :
    put_char T s c = (reset T, false) := by
  have h : c = 10 ∨ c = 13 := by simpa [is_terminator] using hc
  rcases h with h | h <;> subst h <;> simp [put_char, hr, ho]

/-- A byte that is no terminator never raises `ready` and is answered with `false`. -/
theorem put_char_no_terminator (T c : Nat) (s : CommandAccumulator)
    (hc : is_terminator c = false) :
    (put_char T s c).2 = false ∧ (put_char T s c).1.ready = false := by
  have h10 : c ≠ 10 := by intro h; subst h; simp [is_terminator] at hc
  have h13 : c ≠ 13 := by intro h; subst h; simp [is_terminator] at hc
  unfold put_char
  by_cases h127 : c = 127
  · subst h127
    cases hr : s.ready <;> by_cases hn : s.next_i = 0 <;> simp [hr, hn, reset]
  · cases hr : s.ready <;> simp [hr, h127, h10, h13, reset] <;> split <;> simp [hr]

theorem feed_no_terminator (T : Nat) (bs : List Nat) (s : CommandAccumulator)
    (hr : s.ready = false) (ht : ∀ b ∈ bs, is_terminator b = false) :
    (feed T s bs).2 = List.replicate bs.length false ∧ (feed T s bs).1.ready = false := by
  induction bs generalizing s with
  | nil => simp [feed, hr]
  | cons b bs ih =>
    have hb := put_char_no_terminator T b s (ht b (by simp))
    have ih2 := ih (put_char T s b).1 hb.2 (fun x hx => ht x (by simp [hx]))
    simp [feed, hb.1, ih2.1, ih2.2, List.replicate_succ]

/-- While `overflow` is set, a byte that is neither a terminator nor the backspace 127 leaves
the flag set and is answered with `false`. -/
theorem put_char_overflow_keeps (T c : Nat) (s : CommandAccumulator)
    (hc : is_terminator c = false) (h127 : c ≠ 127)
    (hr : s.ready = false) (ho : s.overflow = true) :
    (put_char T s c).2 = false ∧ (put_char T s c).1.ready = false ∧
      (put_char T s c).1.overflow = true := by
  have h10 : c ≠ 10 := by intro h; subst h; simp [is_terminator] at hc
  have h13 : c ≠ 13 := by intro h; subst h; simp [is_terminator] at hc
  unfold put_char
  simp [hr, h127, h10, h13]
  split <;> simp [hr, ho]

theorem feed_overflow_keeps (T : Nat) (bs : List Nat) (s : CommandAccumulator)
    (ht : ∀ b ∈ bs, is_terminator b = false) (h127 : ∀ b ∈ bs, b ≠ 127)
    (hr : s.ready = false) (ho : s.overflow = true) :
    (feed T s bs).2 = List.replicate bs.length false ∧ (feed T s bs).1.ready = false ∧
      (feed T s bs).1.overflow = true := by
  induction bs generalizing s with
  | nil => simp [feed, hr, ho]
  | cons b bs ih =>
    have hb := put_char_overflow_keeps T b s (ht b (by simp)) (h127 b (by simp)) hr ho
    have ih2 := ih (put_char T s b).1 (fun x hx => ht x (by simp [hx]))
      (fun x hx => h127 x (by simp [hx])) hb.2.1 hb.2.2
    simp [feed, hb.1, ih2.1, ih2.2.1, ih2.2.2, List.replicate_succ]

/-- After any `put_char` the flags `ready` and `overflow` are not both set. -/
theorem put_char_ready_overflow (T c : Nat) (s : CommandAccumulator)
    (ho : (put_char T s c).1.overflow = true) : (put_char T s c).1.ready = false := by
  revert ho
  unfold put_char
  cases hr : s.ready <;> cases hov : s.overflow <;> simp [reset] <;>
    (repeat' split) <;> simp_all

theorem feed_ready_overflow (T : Nat) (pre : List Nat)
    (ho : (feed T (reset T) pre).1.overflow = true) :
    (feed T (reset T) pre).1.ready = false := by
  rcases List.eq_nil_or_concat pre with h | ⟨init, c, h⟩
  · subst h; simp [feed, reset]
  · subst h
    rw [List.concat_eq_append, feed_append] at ho ⊢
    simp only [feed] at ho ⊢
    exact put_char_ready_overflow T c _ ho

/-- Feeding more bytes than fit, none of them a terminator or a backspace, to a fresh
accumulator: every answer is `false` and `overflow` ends up set. -/
theorem feed_past_capacity (T : Nat) (bs : List Nat) (hlen : T < bs.length)
    (ht : ∀ b ∈ bs, is_terminator b = false) (h127 : ∀ b ∈ bs, b ≠ 127) :
    (feed T (reset T) bs).2 = List.replicate bs.length false ∧
      (feed T (reset T) bs).1.ready = false ∧ (feed T (reset T) bs).1.overflow = true := by
  have hsplit : bs = bs.take T ++ bs.drop T := (List.take_append_drop T bs).symm
  have htl : (bs.take T).length = T := by simp; omega
  have hst := feed_store_reset T (bs.take T)
    (fun b hb => h127 b (List.mem_of_mem_take hb))
    (fun b hb => ht b (List.mem_of_mem_take hb)) (by omega)
  obtain ⟨c, rest, hd⟩ : ∃ c rest, bs.drop T = c :: rest := by
    cases hdr : bs.drop T with
    | nil => simp at hdr; omega
    | cons c rest => exact ⟨c, rest, rfl⟩
  have hc_mem : c ∈ bs := List.mem_of_mem_drop (by rw [hd]; simp)
  have hrest_mem : ∀ x ∈ rest, x ∈ bs := fun x hx =>
    List.mem_of_mem_drop (by rw [hd]; simp [hx])
  have hc10 : c ≠ 10 := by
    intro h; have := ht c hc_mem; subst h; simp [is_terminator] at this
  have hc13 : c ≠ 13 := by
    intro h; have := ht c hc_mem; subst h; simp [is_terminator] at this
  have hput : put_char T ⟨bs.take T ++ List.replicate (T - (bs.take T).length) 0,
      (bs.take T).length, false, false⟩ c
      = (⟨bs.take T ++ List.replicate (T - (bs.take T).length) 0,
           (bs.take T).length, true, false⟩, false) := by
    simp [put_char, h127 c hc_mem, hc10, hc13, htl]
  have hk := feed_overflow_keeps T rest
    ⟨bs.take T ++ List.replicate (T - (bs.take T).length) 0, (bs.take T).length, true, false⟩
    (fun x hx => ht x (hrest_mem x hx)) (fun x hx => h127 x (hrest_mem x hx)) rfl rfl
  have hlen2 : bs.length = (bs.take T).length + (rest.length + 1) := by
    have := congrArg List.length hsplit
    rw [List.length_append, hd] at this
    simpa using this
  have key : feed T (reset T) bs
      = ((feed T ⟨bs.take T ++ List.replicate (T - (bs.take T).length) 0,
                   (bs.take T).length, true, false⟩ rest).1,
         List.replicate (bs.take T).length false ++ false ::
           (feed T ⟨bs.take T ++ List.replicate (T - (bs.take T).length) 0,
                     (bs.take T).length, true, false⟩ rest).2) := by
    conv_lhs => rw [hsplit, hd]
    rw [feed_append, hst]
    simp only [feed, hput]
  rw [key]
  refine ⟨?_, hk.2.1, hk.2.2⟩
  simp only [hk.1]
  rw [hlen2, List.replicate_add, List.replicate_succ]

end CommandAccumulator

/-! ## The command framer: claims C1 to C5 -/

/-- C1: `k` terminators, then a non-empty command `s` shorter than the buffer that holds no
terminator, no byte 127 and no zero byte, then one terminator, fed to a fresh accumulator:
`put_char` answers `false` to every byte but the last and `true` to the last one; afterwards
`ready` is set and `command()` is `s`. -/
theorem framer_frames_one_command (T k t : Nat) (s : List Nat)
    (ht : t = 10 ∨ t = 13) (hne : s ≠ []) (hlen : s.length < T)
    (hs : ∀ b ∈ s, b ≠ 10 ∧ b ≠ 13 ∧ b ≠ 127 ∧ b ≠ 0) :
    (CommandAccumulator.feed T (CommandAccumulator.reset T)
        (List.replicate k t ++ s ++ [t])).2 = List.replicate (k + s.length) false ++ [true] ∧
    (CommandAccumulator.feed T (CommandAccumulator.reset T)
        (List.replicate k t ++ s ++ [t])).1.ready = true ∧
    (CommandAccumulator.feed T (CommandAccumulator.reset T)
        (List.replicate k t ++ s ++ [t])).1.command = some s := by
  have htt : is_terminator t = true := by
    rcases ht with h | h <;> subst h <;> simp [is_terminator]
  have hlead := CommandAccumulator.feed_terminators_reset T (List.replicate k t)
    (fun u hu => by rw [List.eq_of_mem_replicate hu]; exact htt)
  have hst := CommandAccumulator.feed_store_reset T s (fun b hb => (hs b hb).2.2.1)
    (fun b hb => by
      have h := hs b hb
      simp [is_terminator, h.1, h.2.1]) (Nat.le_of_lt hlen)
  have hpos : s.length ≠ 0 := by
    intro h; exact hne (List.length_eq_zero.mp h)
  have hfin := CommandAccumulator.put_char_terminator_ready T t
    ⟨s ++ List.replicate (T - s.length) 0, s.length, false, false⟩ htt rfl rfl hpos
  have hcmd := CommandAccumulator.command_of_stored s (T - s.length)
    (fun b hb => (hs b hb).2.2.2) (by omega) s.length false true
  have key : CommandAccumulator.feed T (CommandAccumulator.reset T)
      (List.replicate k t ++ s ++ [t])
      = (⟨s ++ List.replicate (T - s.length) 0, s.length, false, true⟩,
         List.replicate (k + s.length) false ++ [true]) := by
    rw [List.append_assoc, CommandAccumulator.feed_append, hlead,
      CommandAccumulator.feed_append, hst]
    simp only [CommandAccumulator.feed, hfin, List.length_replicate]
    rw [List.replicate_add, List.append_assoc]
  rw [key]
  exact ⟨rfl, rfl, hcmd⟩

/-- Witness of C1: the input "\n\nabc\n" with a buffer of 4 bytes. -/
theorem framer_frames_one_command_witness :
    (CommandAccumulator.feed 4 (CommandAccumulator.reset 4)
        (List.replicate 2 10 ++ [97, 98, 99] ++ [10])).2
      = List.replicate (2 + [97, 98, 99].length) false ++ [true] ∧
    (CommandAccumulator.feed 4 (CommandAccumulator.reset 4)
        (List.replicate 2 10 ++ [97, 98, 99] ++ [10])).1.ready = true ∧
    (CommandAccumulator.feed 4 (CommandAccumulator.reset 4)
        (List.replicate 2 10 ++ [97, 98, 99] ++ [10])).1.command = some [97, 98, 99] :=
  framer_frames_one_command 4 2 10 [97, 98, 99] (Or.inl rfl) (by decide) (by decide)
    (by decide)

/-- C2 as stated fails: after the single byte `a` (no terminator) `command()` is "a", not the
empty string. -/
theorem framer_command_not_empty_without_terminator :
    (∀ b ∈ [97], b ≠ 10 ∧ b ≠ 13) ∧
    (CommandAccumulator.feed 4 (CommandAccumulator.reset 4) [97]).1.command = some [97] ∧
    (CommandAccumulator.feed 4 (CommandAccumulator.reset 4) [97]).1.command ≠ some [] := by
  decide

/-- C2 amended: for a byte sequence without terminator fed to a fresh accumulator, after every
byte (after the first `j` bytes, for every `j`) all answers of `put_char` were `false` and
`ready` is unset; `command()` is not empty but the text buffered so far: when the sequence
also holds no byte 127 and no zero byte and is shorter than the buffer, it is exactly the bytes
fed so far. -/
theorem framer_never_ready_without_terminator (T : Nat) (bs : List Nat) (j : Nat)
    (ht : ∀ b ∈ bs, b ≠ 10 ∧ b ≠ 13) :
    (CommandAccumulator.feed T (CommandAccumulator.reset T) (bs.take j)).2
      = List.replicate (bs.take j).length false ∧
    (CommandAccumulator.feed T (CommandAccumulator.reset T) (bs.take j)).1.ready = false ∧
    ((∀ b ∈ bs, b ≠ 127 ∧ b ≠ 0) → bs.length < T →
      (CommandAccumulator.feed T (CommandAccumulator.reset T) (bs.take j)).1.command
        = some (bs.take j)) := by
  have htj : ∀ b ∈ bs.take j, is_terminator b = false := fun b hb => by
    have h := ht b (List.mem_of_mem_take hb)
    simp [is_terminator, h.1, h.2]
  have h1 := CommandAccumulator.feed_no_terminator T (bs.take j) (CommandAccumulator.reset T)
    rfl htj
  refine ⟨h1.1, h1.2, ?_⟩
  intro hz hlen
  have hlj : (bs.take j).length < T := by
    have := List.length_take j bs
    omega
  rw [CommandAccumulator.feed_store_reset T (bs.take j)
    (fun b hb => (hz b (List.mem_of_mem_take hb)).1) htj (Nat.le_of_lt hlj)]
  exact CommandAccumulator.command_of_stored (bs.take j) (T - (bs.take j).length)
    (fun b hb => (hz b (List.mem_of_mem_take hb)).2) (by omega) _ _ _

/-- Witness of amended C2: after the bytes "ab" of "abc" with a buffer of 4 bytes, both answers
were `false`, `ready` is unset and `command()` is "ab". -/
theorem framer_never_ready_without_terminator_witness :
    (CommandAccumulator.feed 4 (CommandAccumulator.reset 4) ([97, 98, 99].take 2)).2
      = List.replicate ([97, 98, 99].take 2).length false ∧
    (CommandAccumulator.feed 4 (CommandAccumulator.reset 4) ([97, 98, 99].take 2)).1.ready
      = false ∧
    (CommandAccumulator.feed 4 (CommandAccumulator.reset 4) ([97, 98, 99].take 2)).1.command
      = some ([97, 98, 99].take 2) :=
  ⟨(framer_never_ready_without_terminator 4 [97, 98, 99] 2 (by decide)).1,
   (framer_never_ready_without_terminator 4 [97, 98, 99] 2 (by decide)).2.1,
   (framer_never_ready_without_terminator 4 [97, 98, 99] 2 (by decide)).2.2
     (by decide) (by decide)⟩

/-- C3: more than `T_buf_size` bytes without terminator and without byte 127, then one
terminator, fed to a fresh accumulator: every `put_char`, the one of the terminator included,
answers `false`, and the state afterwards is the freshly reset state. -/
theorem framer_overflow_discards (T t : Nat) (bs : List Nat)
    (hlen : T < bs.length) (hb : ∀ b ∈ bs, b ≠ 10 ∧ b ≠ 13 ∧ b ≠ 127)
    (ht : t = 10 ∨ t = 13) :
    CommandAccumulator.feed T (CommandAccumulator.reset T) (bs ++ [t])
      = (CommandAccumulator.reset T, List.replicate (bs.length + 1) false) := by
  have htt : is_terminator t = true := by
    rcases ht with h | h <;> subst h <;> simp [is_terminator]
  have hov := CommandAccumulator.feed_past_capacity T bs hlen
    (fun b h => by
      have h2 := hb b h
      simp [is_terminator, h2.1, h2.2.1])
    (fun b h => (hb b h).2.2)
  have hfin := CommandAccumulator.put_char_terminator_overflow T t
    (CommandAccumulator.feed T (CommandAccumulator.reset T) bs).1 htt hov.2.1 hov.2.2
  rw [CommandAccumulator.feed_append]
  simp only [CommandAccumulator.feed, hfin, hov.1]
  rw [List.replicate_succ' bs.length false]

/-- Witness of C3: "abc\n" with a buffer of 2 bytes. -/
theorem framer_overflow_discards_witness :
    CommandAccumulator.feed 2 (CommandAccumulator.reset 2) ([97, 98, 99] ++ [10])
      = (CommandAccumulator.reset 2, List.replicate ([97, 98, 99].length + 1) false) :=
  framer_overflow_discards 2 10 [97, 98, 99] (by decide) (by decide) (Or.inl rfl)

/-- C4 as stated fails: with a buffer of 2 bytes, "abc" sets `overflow`; the byte 127 that
follows clears it again, and the terminator then answers `true` and surfaces the partial
command "a". -/
theorem framer_backspace_revives_overflowed_command :
    (CommandAccumulator.feed 2 (CommandAccumulator.reset 2) [97, 98, 99]).1.overflow = true ∧
    (CommandAccumulator.feed 2
      (CommandAccumulator.feed 2 (CommandAccumulator.reset 2) [97, 98, 99]).1 [127, 10]).2
        = [false, true] ∧
    (CommandAccumulator.feed 2
      (CommandAccumulator.feed 2 (CommandAccumulator.reset 2) [97, 98, 99]).1
        [127, 10]).1.command = some [97] := by
  decide

/-- C4 amended: when `overflow` is set after the bytes `pre` fed to a fresh accumulator, then
for all following bytes `bs` that hold no byte 127 (and no terminator), every `put_char` up to
and including the next terminator answers `false`, and that terminator resets the
accumulator. -/
theorem framer_overflowed_never_ready (T t : Nat) (pre bs : List Nat)
    (hov : (CommandAccumulator.feed T (CommandAccumulator.reset T) pre).1.overflow = true)
    (hb : ∀ b ∈ bs, b ≠ 10 ∧ b ≠ 13 ∧ b ≠ 127) (ht : t = 10 ∨ t = 13) :
    CommandAccumulator.feed T
        (CommandAccumulator.feed T (CommandAccumulator.reset T) pre).1 (bs ++ [t])
      = (CommandAccumulator.reset T, List.replicate (bs.length + 1) false) := by
  have htt : is_terminator t = true := by
    rcases ht with h | h <;> subst h <;> simp [is_terminator]
  have hr := CommandAccumulator.feed_ready_overflow T pre hov
  have hk := CommandAccumulator.feed_overflow_keeps T bs
    (CommandAccumulator.feed T (CommandAccumulator.reset T) pre).1
    (fun b h => by
      have h2 := hb b h
      simp [is_terminator, h2.1, h2.2.1])
    (fun b h => (hb b h).2.2) hr hov
  have hfin := CommandAccumulator.put_char_terminator_overflow T t
    (CommandAccumulator.feed T
      (CommandAccumulator.feed T (CommandAccumulator.reset T) pre).1 bs).1 htt hk.2.1 hk.2.2
  rw [CommandAccumulator.feed_append]
  simp only [CommandAccumulator.feed, hfin, hk.1]
  rw [List.replicate_succ' bs.length false]

/-- Witness of amended C4: "abc" overflows a buffer of 2 bytes, then "de\r" follows. -/
theorem framer_overflowed_never_ready_witness :
    (CommandAccumulator.feed 2 (CommandAccumulator.reset 2) [97, 98, 99]).1.overflow = true ∧
    CommandAccumulator.feed 2
        (CommandAccumulator.feed 2 (CommandAccumulator.reset 2) [97, 98, 99]).1
        ([100, 101] ++ [13])
      = (CommandAccumulator.reset 2, List.replicate ([100, 101].length + 1) false) :=
  ⟨by decide,
   framer_overflowed_never_ready 2 13 [97, 98, 99] [100, 101] (by decide) (by decide)
    (Or.inr rfl)⟩

/-- C5: in a state with `ready` set, `put_char(c)` answers and leaves the state exactly as
`reset()` followed by `put_char(c)` does; in particular a terminator right after a ready
event (the `\n` of `\r\n`) answers `false` and leaves the empty, freshly reset buffer. -/
theorem framer_ready_implies_reset_first (T c : Nat) (st : CommandAccumulator)
    (hr : st.ready = true) :
    CommandAccumulator.put_char T st c
      = CommandAccumulator.put_char T (CommandAccumulator.reset T) c ∧
    (c = 10 ∨ c = 13 →
      CommandAccumulator.put_char T st c = (CommandAccumulator.reset T, false)) := by
  have h1 : CommandAccumulator.put_char T st c
      = CommandAccumulator.put_char T (CommandAccumulator.reset T) c := by
    simp [CommandAccumulator.put_char, hr, CommandAccumulator.reset]
  refine ⟨h1, fun hc => ?_⟩
  rw [h1]
  exact CommandAccumulator.put_char_terminator_reset T c (by
    rcases hc with h | h <;> subst h <;> simp [is_terminator])

/-- Witness of C5: the state after "ab\r" with a buffer of 4 bytes, then `\n`. -/
theorem framer_ready_implies_reset_first_witness :
    (CommandAccumulator.feed 4 (CommandAccumulator.reset 4) [97, 98, 13]).1.ready = true ∧
    CommandAccumulator.put_char 4
        (CommandAccumulator.feed 4 (CommandAccumulator.reset 4) [97, 98, 13]).1 10
      = CommandAccumulator.put_char 4 (CommandAccumulator.reset 4) 10 ∧
    CommandAccumulator.put_char 4
        (CommandAccumulator.feed 4 (CommandAccumulator.reset 4) [97, 98, 13]).1 10
      = (CommandAccumulator.reset 4, false) :=
  ⟨by decide,
   (framer_ready_implies_reset_first 4 10
    (CommandAccumulator.feed 4 (CommandAccumulator.reset 4) [97, 98, 13]).1 (by decide)).1,
   (framer_ready_implies_reset_first 4 10
    (CommandAccumulator.feed 4 (CommandAccumulator.reset 4) [97, 98, 13]).1 (by decide)).2
     (Or.inl rfl)⟩

/-! ## Lemmas on the playback cursor -/

theorem elem_at_of_lt {α : Type} (v : List α) (i : Int) (h0 : 0 ≤ i) (h1 : i < v.length) :
    ∃ x, elem_at v i = some x ∧ x ∈ v := by
  have hlt : i.toNat < v.length := by omega
  refine ⟨v[i.toNat], ?_, List.getElem_mem hlt⟩
  simp [elem_at, h0, List.getElem?_eq_getElem hlt]

theorem elem_at_neg {α : Type} (v : List α) (i : Int) (h : i < 0) : elem_at v i = none := by
  have : ¬ (0 ≤ i) := by omega
  simp [elem_at, this]

theorem elem_at_some_lt {α : Type} (v : List α) (i : Int) (x : α) (h : elem_at v i = some x) :
    0 ≤ i ∧ i < v.length := by
  unfold elem_at at h
  by_cases h0 : 0 ≤ i
  · rw [if_pos h0] at h
    have := (List.getElem?_eq_some_iff.mp h).1
    omega
  · rw [if_neg h0] at h
    cases h

/-- The function `cursor_bound_wrap` on a catalog with albums, once the album index has been
brought into range (lines 154-157) and the album looked up (line 158). -/
theorem cursor_bound_wrap_eq (mc : MediaContent) (cursor : PlayCursor)
    (hne : mc.albums ≠ []) :
    ∃ a2 album, 0 ≤ a2 ∧ a2 < (mc.albums.length : Int) ∧
      (0 ≤ cursor.album_i → cursor.album_i < (mc.albums.length : Int) →
        a2 = cursor.album_i) ∧
      elem_at mc.albums a2 = some album ∧
      cursor_bound_wrap mc cursor =
        if cursor.track_i < 0 then
          match elem_at mc.albums (if a2 - 1 < 0 then (mc.albums.length : Int) - 1 else a2 - 1)
          with
          | none => none
          | some album2 =>
            some { cursor with
              album_i := if a2 - 1 < 0 then (mc.albums.length : Int) - 1 else a2 - 1,
              track_i := (album2.tracks.length : Int) - 1 }
        else if cursor.track_i ≥ (album.tracks.length : Int) then
          some { cursor with
            track_i := 0,
            album_i := if a2 + 1 ≥ (mc.albums.length : Int) then 0 else a2 + 1 }
        else some { cursor with album_i := a2 } := by
  have hpos : 0 < mc.albums.length := List.length_pos.mpr hne
  have hemp : mc.albums.isEmpty = false := by
    cases h : mc.albums with
    | nil => exact absurd h hne
    | cons a l => rfl
  let a1 : Int := if cursor.album_i < 0 then (mc.albums.length : Int) - 1 else cursor.album_i
  let a2 : Int := if a1 ≥ (mc.albums.length : Int) then 0 else a1
  have ha2 : 0 ≤ a2 ∧ a2 < (mc.albums.length : Int) := by
    simp only [a2, a1]
    split_ifs <;> omega
  have hsame : 0 ≤ cursor.album_i → cursor.album_i < (mc.albums.length : Int) →
      a2 = cursor.album_i := by
    intro h0 h1
    simp only [a2, a1]
    split_ifs <;> omega
  obtain ⟨album, halb, _⟩ := elem_at_of_lt mc.albums a2 ha2.1 ha2.2
  refine ⟨a2, album, ha2.1, ha2.2, hsame, halb, ?_⟩
  unfold cursor_bound_wrap
  simp only [hemp, Bool.false_eq_true, if_false]
  show (match elem_at mc.albums a2 with
    | none => none
    | some album => _) = _
  rw [halb]

theorem cursor_in_range_iff (mc : MediaContent) (cursor : PlayCursor) :
    cursor_in_range mc cursor ↔
      ∃ album, 0 ≤ cursor.album_i ∧ cursor.album_i < (mc.albums.length : Int) ∧
        elem_at mc.albums cursor.album_i = some album ∧
        0 ≤ cursor.track_i ∧ cursor.track_i < (album.tracks.length : Int) := by
  unfold cursor_in_range
  cases h : elem_at mc.albums cursor.album_i with
  | none => simp
  | some album => simp

theorem wrap_succ (a n : Int) (h0 : 0 ≤ a) (h1 : a < n) :
    (if a + 1 ≥ n then 0 else a + 1) = (a + 1) % n := by
  by_cases h : a + 1 ≥ n
  · have : a + 1 = n := by omega
    rw [if_pos h, this, Int.emod_self]
  · rw [if_neg h, Int.emod_eq_of_lt (by omega) (by omega)]

theorem wrap_pred (a n : Int) (h0 : 0 ≤ a) (h1 : a < n) :
    (if a - 1 < 0 then n - 1 else a - 1) = (a - 1) % n := by
  by_cases h : a - 1 < 0
  · have ha : a = 0 := by omega
    subst ha
    rw [if_pos h]
    have : (0 - 1 : Int) % n = (n - 1) % n := by
      have := Int.add_mul_emod_self (a := (0 - 1 : Int)) (b := 1) (c := n)
      rw [← this]
      congr 1
      ring
    rw [this, Int.emod_eq_of_lt (by omega) (by omega)]
  · rw [if_neg h, Int.emod_eq_of_lt (by omega) (by omega)]

/-! ## The playback cursor: claims C6 to C9 -/

/-- C6: on a catalog with at least one album in which every album has at least one track,
`cursor_bound_wrap` returns, for arbitrary integer indices (negative or past the end), a
cursor with `0 <= album_i < len(albums)` and `0 <= track_i < len(albums[album_i].tracks)`. -/
theorem cursor_bound_wrap_in_range (mc : MediaContent) (cursor : PlayCursor)
    (hne : mc.albums ≠ []) (htr : ∀ a ∈ mc.albums, a.tracks ≠ []) :
    ∃ c, cursor_bound_wrap mc cursor = some c ∧ cursor_in_range mc c := by
  obtain ⟨a2, album, h0, h1, _, halb, heq⟩ := cursor_bound_wrap_eq mc cursor hne
  have hlen : ∀ a ∈ mc.albums, 0 < a.tracks.length := fun a ha =>
    List.length_pos.mpr (htr a ha)
  rw [heq]
  by_cases hneg : cursor.track_i < 0
  · rw [if_pos hneg]
    have hr : 0 ≤ (if a2 - 1 < 0 then (mc.albums.length : Int) - 1 else a2 - 1) ∧
        (if a2 - 1 < 0 then (mc.albums.length : Int) - 1 else a2 - 1)
          < (mc.albums.length : Int) := by
      split_ifs <;> omega
    obtain ⟨album2, halb2, hmem2⟩ := elem_at_of_lt mc.albums _ hr.1 hr.2
    have := hlen album2 hmem2
    rw [halb2]
    refine ⟨_, rfl, ?_⟩
    rw [cursor_in_range_iff]
    exact ⟨album2, hr.1, hr.2, halb2, by simp only; omega, by simp only; omega⟩
  · rw [if_neg hneg]
    by_cases hge : cursor.track_i ≥ (album.tracks.length : Int)
    · rw [if_pos hge]
      have hr : 0 ≤ (if a2 + 1 ≥ (mc.albums.length : Int) then 0 else a2 + 1) ∧
          (if a2 + 1 ≥ (mc.albums.length : Int) then 0 else a2 + 1)
            < (mc.albums.length : Int) := by
        split_ifs <;> omega
      obtain ⟨album2, halb2, hmem2⟩ := elem_at_of_lt mc.albums _ hr.1 hr.2
      have := hlen album2 hmem2
      refine ⟨_, rfl, ?_⟩
      rw [cursor_in_range_iff]
      exact ⟨album2, hr.1, hr.2, halb2, by simp only; omega, by simp only; omega⟩
    · rw [if_neg hge]
      refine ⟨_, rfl, ?_⟩
      rw [cursor_in_range_iff]
      exact ⟨album, h0, h1, halb, by simp only; omega, by simp only; omega⟩

/-- Witness of C6: track counts [2, 1] and the cursor (-3, 7). -/
theorem cursor_bound_wrap_in_range_witness :
    ∃ c,
      cursor_bound_wrap
        { albums := [{ name := "A", tracks := [⟨"a1", "1"⟩, ⟨"a2", "2"⟩] },
                     { name := "B", tracks := [⟨"b1", "1"⟩] }] }
        { album_i := -3, track_i := 7, time_pos := 0 } = some c ∧
      cursor_in_range
        { albums := [{ name := "A", tracks := [⟨"a1", "1"⟩, ⟨"a2", "2"⟩] },
                     { name := "B", tracks := [⟨"b1", "1"⟩] }] } c :=
  cursor_bound_wrap_in_range
    { albums := [{ name := "A", tracks := [⟨"a1", "1"⟩, ⟨"a2", "2"⟩] },
                 { name := "B", tracks := [⟨"b1", "1"⟩] }] }
    { album_i := -3, track_i := 7, time_pos := 0 }
    (by simp) (by simp)

/-- C7: on a catalog with `n >= 1` albums the next-track step from an in-range cursor
`(a, t)` yields `(a, t+1)` when `t+1 < len(albums[a].tracks)` and `((a+1) mod n, 0)`
otherwise, with `time_pos` 0. -/
theorem next_track_step (mc : MediaContent) (cursor : PlayCursor)
    (hin : cursor_in_range mc cursor) :
    ∃ album, elem_at mc.albums cursor.album_i = some album ∧
      handle_control_next mc cursor = some
        (if cursor.track_i + 1 < (album.tracks.length : Int)
          then { album_i := cursor.album_i, track_i := cursor.track_i + 1, time_pos := 0 }
          else { album_i := (cursor.album_i + 1) % (mc.albums.length : Int), track_i := 0,
                 time_pos := 0 }) := by
  obtain ⟨album, ha0, ha1, halb, ht0, ht1⟩ := (cursor_in_range_iff mc cursor).mp hin
  have hne : mc.albums ≠ [] := by
    intro h; rw [h] at ha1; simp at ha1; omega
  obtain ⟨a2, album', h0, h1, hsame, halb', heq⟩ := cursor_bound_wrap_eq mc
    { cursor with track_i := cursor.track_i + 1, time_pos := 0 } hne
  have ha2 : a2 = cursor.album_i := hsame ha0 ha1
  subst ha2
  have hal : album' = album := by
    have : some album' = some album := by rw [← halb', ← halb]
    exact Option.some.inj this
  subst hal
  refine ⟨album', halb, ?_⟩
  unfold handle_control_next
  rw [heq]
  have hnn : ¬ (cursor.track_i + 1 < 0) := by omega
  simp only [hnn, if_false]
  by_cases hlt : cursor.track_i + 1 < (album'.tracks.length : Int)
  · have hge : ¬ (cursor.track_i + 1 ≥ (album'.tracks.length : Int)) := by omega
    rw [if_neg hge, if_pos hlt]
  · have hge : cursor.track_i + 1 ≥ (album'.tracks.length : Int) := by omega
    rw [if_pos hge, if_neg hlt, wrap_succ _ _ ha0 ha1]

/-- Witness of C7: with track counts [2, 1] the step from (0, 1) gives (1, 0) and the step
from (1, 0) gives (0, 0). -/
theorem next_track_step_witness :
    (∃ album,
      elem_at (MediaContent.mk [{ name := "A", tracks := [⟨"a1", "1"⟩, ⟨"a2", "2"⟩] },
                     { name := "B", tracks := [⟨"b1", "1"⟩] }]).albums 0 = some album ∧
      handle_control_next
        { albums := [{ name := "A", tracks := [⟨"a1", "1"⟩, ⟨"a2", "2"⟩] },
                     { name := "B", tracks := [⟨"b1", "1"⟩] }] }
        { album_i := 0, track_i := 1, time_pos := 25 / 2 } = some
        (if (1 : Int) + 1 < (album.tracks.length : Int)
          then { album_i := 0, track_i := 1 + 1, time_pos := 0 }
          else { album_i := (0 + 1) % ((2 : Nat) : Int), track_i := 0, time_pos := 0 })) ∧
    handle_control_next
        { albums := [{ name := "A", tracks := [⟨"a1", "1"⟩, ⟨"a2", "2"⟩] },
                     { name := "B", tracks := [⟨"b1", "1"⟩] }] }
        { album_i := 0, track_i := 1, time_pos := 25 / 2 }
      = some { album_i := 1, track_i := 0, time_pos := 0 } ∧
    handle_control_next
        { albums := [{ name := "A", tracks := [⟨"a1", "1"⟩, ⟨"a2", "2"⟩] },
                     { name := "B", tracks := [⟨"b1", "1"⟩] }] }
        { album_i := 1, track_i := 0, time_pos := 0 }
      = some { album_i := 0, track_i := 0, time_pos := 0 } :=
  ⟨next_track_step
    { albums := [{ name := "A", tracks := [⟨"a1", "1"⟩, ⟨"a2", "2"⟩] },
                 { name := "B", tracks := [⟨"b1", "1"⟩] }] }
    { album_i := 0, track_i := 1, time_pos := 25 / 2 } (by decide), by decide, by decide⟩

/-- C8: on a catalog with `n >= 1` albums the previous-track step from an in-range cursor
`(a, t)` yields `(a, t-1)` when `t > 0` and otherwise `(p, len(albums[p].tracks) - 1)` with
`p = (a - 1) mod n`, with `time_pos` 0; for `a = 0` the album `p` is the last album. -/
theorem prev_track_step (mc : MediaContent) (cursor : PlayCursor)
    (hin : cursor_in_range mc cursor) :
    ∃ album2,
      elem_at mc.albums ((cursor.album_i - 1) % (mc.albums.length : Int)) = some album2 ∧
      handle_control_prev mc cursor = some
        (if 0 < cursor.track_i
          then { album_i := cursor.album_i, track_i := cursor.track_i - 1, time_pos := 0 }
          else { album_i := (cursor.album_i - 1) % (mc.albums.length : Int),
                 track_i := (album2.tracks.length : Int) - 1, time_pos := 0 }) ∧
      (cursor.album_i = 0 →
        (cursor.album_i - 1) % (mc.albums.length : Int) = (mc.albums.length : Int) - 1 ∧
        mc.albums.getLast? = some album2) := by
  obtain ⟨album, ha0, ha1, halb, ht0, ht1⟩ := (cursor_in_range_iff mc cursor).mp hin
  have hne : mc.albums ≠ [] := by
    intro h; rw [h] at ha1; simp at ha1; omega
  obtain ⟨a2, album', h0, h1, hsame, halb', heq⟩ := cursor_bound_wrap_eq mc
    { cursor with track_i := cursor.track_i - 1, time_pos := 0 } hne
  have ha2 : a2 = cursor.album_i := hsame ha0 ha1
  subst ha2
  have hal : album' = album := by
    have : some album' = some album := by rw [← halb', ← halb]
    exact Option.some.inj this
  subst hal
  have hp := wrap_pred cursor.album_i (mc.albums.length : Int) ha0 ha1
  have hpr : 0 ≤ (cursor.album_i - 1) % (mc.albums.length : Int) ∧
      (cursor.album_i - 1) % (mc.albums.length : Int) < (mc.albums.length : Int) := by
    rw [← hp]; split_ifs <;> omega
  obtain ⟨album2, halb2, _⟩ := elem_at_of_lt mc.albums _ hpr.1 hpr.2
  refine ⟨album2, halb2, ?_, ?_⟩
  · unfold handle_control_prev
    rw [heq]
    by_cases hpos : 0 < cursor.track_i
    · have hnn : ¬ (cursor.track_i - 1 < 0) := by omega
      have hge : ¬ (cursor.track_i - 1 ≥ (album'.tracks.length : Int)) := by omega
      simp only [hnn, if_false, hge, hpos, if_true]
    · have hn : cursor.track_i - 1 < 0 := by omega
      simp only [hn, if_true, hpos, if_false]
      simp only [hp, halb2]
  · intro hz
    have hlast : (cursor.album_i - 1) % (mc.albums.length : Int)
        = (mc.albums.length : Int) - 1 := by
      rw [← hp]
      have : cursor.album_i - 1 < 0 := by omega
      rw [if_pos this]
    refine ⟨hlast, ?_⟩
    rw [hlast] at halb2
    have hnat : ((mc.albums.length : Int) - 1).toNat = mc.albums.length - 1 := by omega
    have h0' : (0 : Int) ≤ (mc.albums.length : Int) - 1 := by omega
    rw [List.getLast?_eq_getElem?, ← halb2]
    simp [elem_at, h0', hnat]

/-- Witness of C8: with track counts [2, 1] the step from album 0 track 0 lands on the last
track (index 0) of the last album (index 1). -/
theorem prev_track_step_witness :
    (∃ album2,
      elem_at (MediaContent.mk [{ name := "A", tracks := [⟨"a1", "1"⟩, ⟨"a2", "2"⟩] },
                     { name := "B", tracks := [⟨"b1", "1"⟩] }]).albums
        (((0 : Int) - 1) % ((2 : Nat) : Int)) = some album2 ∧
      handle_control_prev
        { albums := [{ name := "A", tracks := [⟨"a1", "1"⟩, ⟨"a2", "2"⟩] },
                     { name := "B", tracks := [⟨"b1", "1"⟩] }] }
        { album_i := 0, track_i := 0, time_pos := 25 / 2 } = some
        (if (0 : Int) < 0
          then { album_i := 0, track_i := 0 - 1, time_pos := 0 }
          else { album_i := ((0 : Int) - 1) % ((2 : Nat) : Int),
                 track_i := (album2.tracks.length : Int) - 1, time_pos := 0 }) ∧
      ((0 : Int) - 1) % ((2 : Nat) : Int) = ((2 : Nat) : Int) - 1 ∧
      (MediaContent.mk [{ name := "A", tracks := [⟨"a1", "1"⟩, ⟨"a2", "2"⟩] },
                     { name := "B", tracks := [⟨"b1", "1"⟩] }]).albums.getLast?
        = some album2) ∧
    handle_control_prev
        { albums := [{ name := "A", tracks := [⟨"a1", "1"⟩, ⟨"a2", "2"⟩] },
                     { name := "B", tracks := [⟨"b1", "1"⟩] }] }
        { album_i := 0, track_i := 0, time_pos := 25 / 2 }
      = some { album_i := 1, track_i := 0, time_pos := 0 } :=
  ⟨match prev_track_step
      { albums := [{ name := "A", tracks := [⟨"a1", "1"⟩, ⟨"a2", "2"⟩] },
                   { name := "B", tracks := [⟨"b1", "1"⟩] }] }
      { album_i := 0, track_i := 0, time_pos := 25 / 2 } (by decide) with
    | ⟨album2, h1, h2, h3⟩ => ⟨album2, h1, h2, (h3 rfl).1, (h3 rfl).2⟩,
   by decide⟩

/-- The part of C9 that the code does implement: for indices that are not negative the three
lookups are bounds-checked and return the marker, the empty `Track` or the addressed entry. -/
theorem lookup_bounds_checked_nonneg (mc : MediaContent) (cursor : PlayCursor)
    (ha : 0 ≤ cursor.album_i) (ht : 0 ≤ cursor.track_i) :
    (cursor.album_i ≥ (mc.albums.length : Int) →
      get_album_name mc cursor = some "ERR:AOVF" ∧
      get_track_name mc cursor = some "ERR:AOVF" ∧
      get_track mc cursor = some Track.empty) ∧
    (cursor.album_i < (mc.albums.length : Int) →
      ∃ album, elem_at mc.albums cursor.album_i = some album ∧
        get_album_name mc cursor = some album.name ∧
        (cursor.track_i ≥ (album.tracks.length : Int) →
          get_track_name mc cursor = some "ERR:TOVF" ∧
          get_track mc cursor = some Track.empty) ∧
        (cursor.track_i < (album.tracks.length : Int) →
          ∃ track, elem_at album.tracks cursor.track_i = some track ∧
            get_track_name mc cursor = some track.display_name ∧
            get_track mc cursor = some track)) := by
  constructor
  · intro h
    simp [get_album_name, get_track_name, get_track, h]
  · intro h
    obtain ⟨album, halb, _⟩ := elem_at_of_lt mc.albums cursor.album_i ha h
    have hn : ¬ (cursor.album_i ≥ (mc.albums.length : Int)) := by omega
    refine ⟨album, halb, ?_, ?_, ?_⟩
    · simp [get_album_name, hn, halb]
    · intro h2
      simp [get_track_name, get_track, hn, halb, h2]
    · intro h2
      obtain ⟨track, htr, _⟩ := elem_at_of_lt album.tracks cursor.track_i ht h2
      have hn2 : ¬ (cursor.track_i ≥ (album.tracks.length : Int)) := by omega
      refine ⟨track, htr, ?_, ?_⟩
      · simp [get_track_name, hn, halb, hn2, htr]
      · simp [get_track, hn, halb, hn2, htr]

/-- C9 fails on the code: with one album of one track, the album index -1 passes the only
test `album_i >= (int)albums.size()` and `mc.albums[-1]` is accessed out of range in all three
lookups; with album index 0 and track index -1, `get_track_name` and `get_track` access
`album.tracks[-1]` out of range. No lookup returns the marker or the empty `Track`. -/
theorem lookup_negative_index_out_of_range :
    get_album_name { albums := [{ name := "A", tracks := [⟨"/mnt/a.mp3", "a"⟩] }] }
        { album_i := -1, track_i := 0, time_pos := 0 } = none ∧
    get_track_name { albums := [{ name := "A", tracks := [⟨"/mnt/a.mp3", "a"⟩] }] }
        { album_i := -1, track_i := 0, time_pos := 0 } = none ∧
    get_track { albums := [{ name := "A", tracks := [⟨"/mnt/a.mp3", "a"⟩] }] }
        { album_i := -1, track_i := 0, time_pos := 0 } = none ∧
    get_track_name { albums := [{ name := "A", tracks := [⟨"/mnt/a.mp3", "a"⟩] }] }
        { album_i := 0, track_i := -1, time_pos := 0 } = none ∧
    get_track { albums := [{ name := "A", tracks := [⟨"/mnt/a.mp3", "a"⟩] }] }
        { album_i := 0, track_i := -1, time_pos := 0 } = none := by
  decide

/-! ## Lemmas on the catalog scan -/

theorem snprintf_format_safe (l : List Char) (h : '%' ∉ l) : snprintf_format l = some l := by
  induction l with
  | nil => rfl
  | cons c rest ih =>
    have hc : c ≠ '%' := fun e => h (by simp [e])
    have hrest : '%' ∉ rest := fun e => h (by simp [e])
    cases rest with
    | nil =>
      unfold snprintf_format
      split <;> simp_all [snprintf_format]
    | cons d rest2 =>
      unfold snprintf_format
      split <;> simp_all

theorem stripped_name_safe (strip : String → String) (fname : String)
    (h : '%' ∉ fname.data) :
    stripped_name strip fname = some (strip (String.mk (fname.data.take 99))) := by
  simp [stripped_name, snprintf_format_safe fname.data h]

theorem albums_of_append (strip : String → String) (xs ys : List ScannedDir) :
    albums_of strip (xs ++ ys) = albums_of strip xs ++ albums_of strip ys := by
  simp [albums_of]

theorem push_root_album_eq (strip : String → String) (root_name path : String)
    (listing : List DirEntry) (result : List Album) :
    push_root_album root_name
        (some ((qualifying_files listing).map (track_of strip path), result))
      = some (result ++ albums_of strip
          [{ name := root_name, path := path, listing := listing }]) := by
  cases h : qualifying_files listing with
  | nil => simp [push_root_album, albums_of, h]
  | cons f fs => simp [push_root_album, albums_of, h, album_of]

mutual
theorem scan_entries_spec (strip : String → String) :
    ∀ (listing : List DirEntry) (path : String) (tracks : List Track) (result : List Album),
      format_safe (qualifying_files listing) →
      (∀ d ∈ visible_dirs_below listing path, format_safe (qualifying_files d.listing)) →
      scan_entries strip listing path tracks result
        = some (tracks ++ (qualifying_files listing).map (track_of strip path),
                result ++ albums_of strip (visible_dirs_below listing path))
  | [], path, tracks, result, _, _ => by
    simp [scan_entries, qualifying_files, visible_dirs_below, albums_of]
  | entry :: rest, path, tracks, result, h1, h2 => by
    have he := scan_entry_spec strip entry path tracks result
      (fun f hf => h1 f (by
        cases entry with
        | file fname =>
          by_cases hq : (!is_hidden fname && filename_supported fname) = true
          · simp only [qualifying_files, hq, if_true, List.mem_singleton] at hf
            subst hf
            simp [qualifying_files, hq]
          · simp [qualifying_files, hq] at hf
        | dir fname listing => simp [qualifying_files] at hf))
      (fun d hd => h2 d (by simp [visible_dirs_below, hd]))
    have hr := scan_entries_spec strip rest path
      (tracks ++ (qualifying_files [entry]).map (track_of strip path))
      (result ++ albums_of strip (visible_dirs_of entry path))
      (fun f hf => h1 f (by
        cases entry with
        | file fname =>
          by_cases hq : (!is_hidden fname && filename_supported fname) = true
          · simp [qualifying_files, hq, hf]
          · simp only [qualifying_files, hq]; simpa using hf
        | dir fname listing => simpa [qualifying_files] using hf))
      (fun d hd => h2 d (by simp [visible_dirs_below, hd]))
    have hq : qualifying_files (entry :: rest)
        = qualifying_files [entry] ++ qualifying_files rest := by
      cases entry with
      | file fname =>
        by_cases hq : (!is_hidden fname && filename_supported fname) = true
        · simp [qualifying_files, hq]
        · simp [qualifying_files, hq]
      | dir fname listing => simp [qualifying_files]
    rw [scan_entries, he]
    simp only [hr, hq, visible_dirs_below, albums_of_append, List.map_append,
      List.append_assoc]
theorem scan_entry_spec (strip : String → String) :
    ∀ (entry : DirEntry) (path : String) (tracks : List Track) (result : List Album),
      format_safe (qualifying_files [entry]) →
      (∀ d ∈ visible_dirs_of entry path, format_safe (qualifying_files d.listing)) →
      scan_entry strip entry path tracks result
        = some (tracks ++ (qualifying_files [entry]).map (track_of strip path),
                result ++ albums_of strip (visible_dirs_of entry path))
  | DirEntry.file fname, path, tracks, result, h1, _ => by
    by_cases hh : is_hidden fname = true
    · simp [scan_entry, qualifying_files, visible_dirs_of, albums_of, hh]
    · by_cases hs : filename_supported fname = true
      · have hq : (!is_hidden fname && filename_supported fname) = true := by simp [hh, hs]
        have hsafe : '%' ∉ fname.data := h1 fname (by simp [qualifying_files, hq])
        simp [scan_entry, qualifying_files, visible_dirs_of, albums_of, hh, hs,
          stripped_name_safe strip fname hsafe, track_of]
      · simp [scan_entry, qualifying_files, visible_dirs_of, albums_of, hh, hs]
  | DirEntry.dir fname listing, path, tracks, result, _, h2 => by
    by_cases hh : is_hidden fname = true
    · simp [scan_entry, qualifying_files, visible_dirs_of, albums_of, hh]
    · have hsub := scan_entries_spec strip listing (path ++ "/" ++ fname) [] result
        (h2 { name := fname, path := path ++ "/" ++ fname, listing := listing }
          (by simp [visible_dirs_of, hh]))
        (fun d hd => h2 d (by simp [visible_dirs_of, hh, hd]))
      rw [scan_entry]
      simp only [hh, Bool.false_eq_true, if_false, hsub, List.nil_append]
      rw [push_root_album_eq]
      simp [qualifying_files, visible_dirs_of, hh, albums_of_append, List.append_assoc]
end

/-- The catalog scan meets its specification on every tree in which no qualifying file of a
reachable directory has a `'%'` in its name: `scan_directory` returns, and appends to
`result_albums` exactly the Albums of the reachable directories that directly contain a
qualifying file. -/
theorem scan_directory_spec (strip : String → String) (root_name path : String)
    (listing : List DirEntry) (result_albums : List Album)
    (hsafe : ∀ d ∈ visible_dirs root_name path listing,
      format_safe (qualifying_files d.listing)) :
    scan_directory strip root_name path listing result_albums
      = some (result_albums ++ albums_of strip (visible_dirs root_name path listing)) := by
  have h := scan_entries_spec strip listing path [] result_albums
    (hsafe { name := root_name, path := path, listing := listing } (by simp [visible_dirs]))
    (fun d hd => hsafe d (by simp [visible_dirs, hd]))
  unfold scan_directory
  rw [h, List.nil_append, push_root_album_eq]
  simp [visible_dirs, albums_of_append, List.append_assoc]

/-- No Album of the specified catalog has an empty track list. -/
theorem albums_of_tracks_nonempty (strip : String → String) (ds : List ScannedDir) :
    ∀ a ∈ albums_of strip ds, a.tracks ≠ [] := by
  intro a ha
  simp only [albums_of, List.mem_map, List.mem_filter] at ha
  obtain ⟨d, ⟨_, hd⟩, rfl⟩ := ha
  cases hq : qualifying_files d.listing with
  | nil => simp [hq] at hd
  | cons f fs => simp [album_of, hq]

/-! ## The catalog scan: claim C10 -/

/-- The tree of the specification, {a.mp3, b.txt, .hidden.mp3, sub/c.mp3} mounted at `/mnt`:
exactly two Albums are appended, the one of `sub` (with `c.mp3` only) before the one of the
root (with `a.mp3` only); the result agrees with the specified catalog. -/
theorem scan_directory_example :
    scan_directory (fun s => s) "root" "/mnt"
        [DirEntry.file "a.mp3", DirEntry.file "b.txt", DirEntry.file ".hidden.mp3",
         DirEntry.dir "sub" [DirEntry.file "c.mp3"]] []
      = some [{ name := "sub", tracks := [⟨"/mnt/sub/c.mp3", "c.mp3"⟩] },
              { name := "root", tracks := [⟨"/mnt/a.mp3", "a.mp3"⟩] }] ∧
    albums_of (fun s => s) (visible_dirs "root" "/mnt"
        [DirEntry.file "a.mp3", DirEntry.file "b.txt", DirEntry.file ".hidden.mp3",
         DirEntry.dir "sub" [DirEntry.file "c.mp3"]])
      = [{ name := "sub", tracks := [⟨"/mnt/sub/c.mp3", "c.mp3"⟩] },
         { name := "root", tracks := [⟨"/mnt/a.mp3", "a.mp3"⟩] }] := by
  decide

/-- C10 fails on the code: the directory that holds the one file `%n.mp3` has a qualifying
file, so the specified catalog is the one Album `root` with the track `/mnt/%n.mp3`; but line
672 passes the file name to `snprintf` as the format string, `%n` is a conversion
specification without argument, and the scan has undefined behaviour instead of appending
that Album. -/
theorem scan_directory_format_string :
    qualifying_files [DirEntry.file "%n.mp3"] = ["%n.mp3"] ∧
    albums_of (fun s => s) (visible_dirs "root" "/mnt" [DirEntry.file "%n.mp3"])
      = [{ name := "root", tracks := [⟨"/mnt/%n.mp3", "%n.mp3"⟩] }] ∧
    scan_directory (fun s => s) "root" "/mnt" [DirEntry.file "%n.mp3"] [] = none := by
  decide

/-! ## The file-type filter: claim C11 -/

theorem extension_loop_no_dot (name : List Char) (h : '.' ∉ name) (k : Nat) :
    extension_loop name k = [] := by
  induction k with
  | zero => rfl
  | succ k ih =>
    have hk : name[k]? ≠ some '.' := by
      intro e
      obtain ⟨hlt, heq⟩ := List.getElem?_eq_some_iff.mp e
      exact h (heq ▸ List.getElem_mem hlt)
    simp [extension_loop, hk, ih]

theorem extension_loop_last_dot (pre suf : List Char) (h : '.' ∉ suf) (j : Nat)
    (hj : j ≤ suf.length) :
    extension_loop (pre ++ '.' :: suf) (pre.length + 1 + j) = suf.map tolower := by
  induction j with
  | zero =>
    have hget0 : (pre ++ '.' :: suf)[pre.length]? = some '.' := by
      rw [List.getElem?_append_right (Nat.le_refl _)]
      simp
    show extension_loop (pre ++ '.' :: suf) (pre.length + 1) = _
    rw [extension_loop, hget0]
    simp
  | succ j ih =>
    have hlt : j < suf.length := by omega
    have hget : (pre ++ '.' :: suf)[pre.length + 1 + j]? = some suf[j] := by
      rw [List.getElem?_append_right (by omega)]
      have : pre.length + 1 + j - pre.length = j + 1 := by omega
      rw [this]
      simp [List.getElem?_eq_getElem hlt]
    have hne : suf[j] ≠ '.' := fun e => h (e ▸ List.getElem_mem hlt)
    have hstep : extension_loop (pre ++ '.' :: suf) (pre.length + 1 + (j + 1))
        = extension_loop (pre ++ '.' :: suf) (pre.length + 1 + j) := by
      show extension_loop (pre ++ '.' :: suf) ((pre.length + 1 + j) + 1) = _
      rw [extension_loop, hget]
      simp [hne]
    rw [hstep, ih (by omega)]

theorem exists_last_dot (name : List Char) (h : '.' ∈ name) :
    ∃ pre suf, name = pre ++ '.' :: suf ∧ '.' ∉ suf := by
  induction name with
  | nil => simp at h
  | cons c rest ih =>
    by_cases hr : '.' ∈ rest
    · obtain ⟨pre, suf, he, hs⟩ := ih hr
      exact ⟨c :: pre, suf, by simp [he], hs⟩
    · have hc : c = '.' := by
        rcases List.mem_cons.mp h with e | e
        · exact e.symm
        · exact absurd e hr
      exact ⟨[], rest, by simp [hc], hr⟩

theorem text_after_last_dot_eq (pre suf : List Char) (h : '.' ∉ suf) :
    text_after_last_dot (pre ++ '.' :: suf) = suf := by
  unfold text_after_last_dot
  have hrev : (pre ++ '.' :: suf).reverse = suf.reverse ++ ('.' :: pre.reverse) := by
    simp
  rw [hrev, List.takeWhile_append_of_pos]
  · simp
  · intro c hc
    have : c ≠ '.' := fun e => h (e ▸ List.mem_reverse.mp hc)
    simp [this]

theorem filename_supported_last_dot (pre suf : List Char) (h : '.' ∉ suf) :
    filename_supported (String.mk (pre ++ '.' :: suf))
      = supported_file_extensions.contains (String.mk (suf.map tolower)) := by
  have hl := extension_loop_last_dot pre suf h suf.length (Nat.le_refl _)
  have hlen : (pre ++ '.' :: suf).length = pre.length + 1 + suf.length := by
    simp; omega
  unfold filename_supported
  show supported_file_extensions.contains
    (String.mk (extension_loop (pre ++ '.' :: suf) (pre ++ '.' :: suf).length)) = _
  rw [hlen, hl]

/-- C11: `filename_supported(name)` is true if and only if `name` contains a `'.'` and the
text after its last `'.'`, converted to lower case, is in the allow-list. Hence two names
whose extensions differ only in the case of their letters get the same answer ("A.MP3" is
accepted like "a.mp3"), and a name without `'.'`, with an empty extension or with the
unlisted extension of "b.txt" is rejected. -/
theorem filename_supported_iff (name : String) (stem1 stem2 ext1 ext2 : List Char) :
    (filename_supported name = true ↔ extension_listed name) ∧
    ('.' ∉ ext1 → '.' ∉ ext2 → ext1.map tolower = ext2.map tolower →
      filename_supported (String.mk (stem1 ++ '.' :: ext1))
        = filename_supported (String.mk (stem2 ++ '.' :: ext2))) ∧
    ('.' ∉ name.data → filename_supported name = false) ∧
    filename_supported (String.mk (stem1 ++ ['.'])) = false ∧
    filename_supported "A.MP3" = true ∧ filename_supported "a.mp3" = true ∧
    filename_supported "b.txt" = false := by
  have hnodot : '.' ∉ name.data → filename_supported name = false := by
    intro h
    unfold filename_supported
    rw [extension_loop_no_dot name.data h]
    decide
  refine ⟨?_, ?_, hnodot, ?_, by decide, by decide, by decide⟩
  · unfold extension_listed
    by_cases hd : '.' ∈ name.data
    · obtain ⟨pre, suf, he, hs⟩ := exists_last_dot name.data hd
      have hname : name = String.mk (pre ++ '.' :: suf) := by
        rw [← he]
      rw [hname, filename_supported_last_dot pre suf hs]
      simp only [text_after_last_dot_eq pre suf hs]
      simp
    · rw [hnodot hd]
      simp [hd]
  · intro h1 h2 he
    rw [filename_supported_last_dot stem1 ext1 h1, filename_supported_last_dot stem2 ext2 h2,
      he]
  · have := filename_supported_last_dot stem1 [] (by simp)
    rw [this]
    decide

/-! ## Disappeared tracks: claim C12 -/

/-- The branch of `refresh_track` for a track that has to be loaded and whose file is
missing (lines 326-334): the path is inserted into the disappeared set, then
`scan_current_mount` runs exactly when `rescan_due` holds. -/
theorem refresh_track_missing (os : RefreshOs) (rescan : AppState → Option AppState)
    (st : AppState) (track : Track)
    (hne : st.current_media_content.albums ≠ [])
    (htrack : get_track st.current_media_content st.current_cursor = some track)
    (hpath : track.path ≠ "") (hplaying : os.playing_path ≠ some track.path)
    (hload : os.loadfile_ok = true) (hmissing : os.track_exists = false) :
    App.refresh_track os rescan st =
      if rescan_due (insert track.path st.disappeared_tracks) st.current_media_content
      then rescan { st with disappeared_tracks := insert track.path st.disappeared_tracks }
      else some { st with disappeared_tracks := insert track.path st.disappeared_tracks } := by
  have he : st.current_media_content.albums.isEmpty = false := by
    cases h : st.current_media_content.albums with
    | nil => exact absurd h hne
    | cons a l => rfl
  unfold App.refresh_track
  simp [he, htrack, hpath, hplaying, hload, hmissing]

/-- C12: after the path of a missing track has been inserted into the disappeared set `D`,
`refresh_track` rescans if and only if `|D| >= 10` or `10 * |D| > T`, with `T` the total
track count of the catalog; the truncating test `n > T / 10` of the code agrees with
`10 * n > T` for all natural numbers; hence for `T >= 90` the rescan is due exactly when `D`
holds ten paths, which for a set that held at most nine before is the insertion of the tenth
distinct path. -/
theorem disappeared_threshold (os : RefreshOs) (rescan : AppState → Option AppState)
    (st : AppState) (track : Track) (n T : Nat) :
    (st.current_media_content.albums ≠ [] →
      get_track st.current_media_content st.current_cursor = some track →
      track.path ≠ "" → os.playing_path ≠ some track.path →
      os.loadfile_ok = true → os.track_exists = false →
      App.refresh_track os rescan st =
        if (insert track.path st.disappeared_tracks).card ≥ 10 ∨
            10 * (insert track.path st.disappeared_tracks).card
              > get_total_tracks st.current_media_content
        then rescan { st with disappeared_tracks := insert track.path st.disappeared_tracks }
        else some { st with
          disappeared_tracks := insert track.path st.disappeared_tracks }) ∧
    (rescan_due (insert track.path st.disappeared_tracks) st.current_media_content = true ↔
      (insert track.path st.disappeared_tracks).card ≥ 10 ∨
        10 * (insert track.path st.disappeared_tracks).card
          > get_total_tracks st.current_media_content) ∧
    (n > T / 10 ↔ 10 * n > T) ∧
    (90 ≤ get_total_tracks st.current_media_content →
      (rescan_due (insert track.path st.disappeared_tracks) st.current_media_content = true ↔
        10 ≤ (insert track.path st.disappeared_tracks).card)) ∧
    (90 ≤ get_total_tracks st.current_media_content → st.disappeared_tracks.card ≤ 9 →
      (rescan_due (insert track.path st.disappeared_tracks) st.current_media_content = true ↔
        track.path ∉ st.disappeared_tracks ∧ st.disappeared_tracks.card = 9)) := by
  have hdue : ∀ (D : Finset String) (mc : MediaContent),
      rescan_due D mc = true ↔ D.card ≥ 10 ∨ 10 * D.card > get_total_tracks mc := by
    intro D mc
    unfold rescan_due
    simp only [Bool.or_eq_true, decide_eq_true_eq]
    omega
  refine ⟨?_, hdue _ _, by omega, ?_, ?_⟩
  · intro hne htrack hpath hplaying hload hmissing
    rw [refresh_track_missing os rescan st track hne htrack hpath hplaying hload hmissing]
    by_cases hd : rescan_due (insert track.path st.disappeared_tracks)
        st.current_media_content = true
    · rw [if_pos hd, if_pos ((hdue _ _).mp hd)]
    · rw [if_neg hd, if_neg (fun h => hd ((hdue _ _).mpr h))]
  · intro hT
    rw [hdue]
    omega
  · intro hT hD
    rw [hdue]
    by_cases hm : track.path ∈ st.disappeared_tracks
    · rw [Finset.insert_eq_of_mem hm]
      constructor
      · intro h; omega
      · intro h; exact absurd hm h.1
    · rw [Finset.card_insert_of_not_mem hm]
      constructor
      · intro h; exact ⟨hm, by omega⟩
      · intro h; omega

/-! ## Mount state: claim C14 -/

theorem refresh_track_mount (os : RefreshOs) (rescan : AppState → Option AppState)
    (st st2 : AppState)
    (hres : ∀ s s2, rescan s = some s2 →
      s2.current_mount_device = s.current_mount_device ∧
      s2.current_mount_path = s.current_mount_path)
    (h : App.refresh_track os rescan st = some st2) :
    st2.current_mount_device = st.current_mount_device ∧
    st2.current_mount_path = st.current_mount_path ∧
    (st.current_media_content.albums = [] → st2 = st) := by
  unfold App.refresh_track at h
  by_cases he : st.current_media_content.albums.isEmpty = true
  · rw [if_pos he] at h
    cases h
    exact ⟨rfl, rfl, fun _ => rfl⟩
  · rw [if_neg he] at h
    have hne : st.current_media_content.albums ≠ [] := by
      intro e; rw [e] at he; exact he rfl
    have key : st2.current_mount_device = st.current_mount_device ∧
        st2.current_mount_path = st.current_mount_path := by
      cases hg : get_track st.current_media_content st.current_cursor with
      | none => rw [hg] at h; cases h
      | some track =>
        rw [hg] at h
        simp only at h
        split_ifs at h
        all_goals first
          | (cases h; exact ⟨rfl, rfl⟩)
          | (have h2 := hres _ _ h; exact h2)
    exact ⟨key.1, key.2, fun e => absurd e hne⟩

theorem force_start_mount (ok : Bool) (os : RefreshOs) (rescan : AppState → Option AppState)
    (st st2 : AppState)
    (hres : ∀ s s2, rescan s = some s2 →
      s2.current_mount_device = s.current_mount_device ∧
      s2.current_mount_path = s.current_mount_path)
    (h : App.force_start_at_cursor ok os rescan st = some st2) :
    st2.current_mount_device = st.current_mount_device ∧
    st2.current_mount_path = st.current_mount_path := by
  unfold App.force_start_at_cursor at h
  cases hg : get_track st.current_media_content st.current_cursor with
  | none => rw [hg] at h; cases h
  | some track =>
    rw [hg] at h
    simp only at h
    split_ifs at h
    have := refresh_track_mount os rescan st st2 hres h
    exact ⟨this.1, this.2.1⟩

theorem scan_current_mount_mount (scans : List ScanOs) :
    ∀ (st st2 : AppState), App.scan_current_mount scans st = some st2 →
      st2.current_mount_device = st.current_mount_device ∧
      st2.current_mount_path = st.current_mount_path := by
  induction scans with
  | nil => intro st st2 h; simp [App.scan_current_mount] at h
  | cons os rest ih =>
    intro st st2 h
    rw [App.scan_current_mount] at h
    have h2 := force_start_mount _ _ _ _ _ ih h
    exact h2

theorem refresh_track_invariant (os : RefreshOs) (scans : List ScanOs) (st st2 : AppState)
    (hinv : mount_invariant st)
    (h : App.refresh_track os (App.scan_current_mount scans) st = some st2) :
    mount_invariant st2 := by
  obtain ⟨hd, hp, hsame⟩ := refresh_track_mount os _ st st2 (scan_current_mount_mount scans) h
  by_cases he : st.current_media_content.albums = []
  · rw [hsame he]; exact hinv
  · have hdev : st.current_mount_device ≠ "" := fun e => he (hinv.2 e)
    have hpath : st.current_mount_path ≠ "" := fun e => hdev (hinv.1.mpr e)
    unfold mount_invariant
    rw [hd, hp]
    exact ⟨⟨fun e => absurd e hdev, fun e => absurd e hpath⟩, fun e => absurd e hdev⟩

theorem scan_current_mount_invariant (scans : List ScanOs) (st st2 : AppState)
    (hdev : st.current_mount_device ≠ "") (hpath : st.current_mount_path ≠ "")
    (h : App.scan_current_mount scans st = some st2) : mount_invariant st2 := by
  obtain ⟨hd, hp⟩ := scan_current_mount_mount scans st st2 h
  unfold mount_invariant
  rw [hd, hp]
  exact ⟨⟨fun e => absurd e hdev, fun e => absurd e hpath⟩, fun e => absurd e hdev⟩

theorem check_mounted_invariant (os : ChangedOs) (st : AppState) (hinv : mount_invariant st) :
    mount_invariant (App.check_mounted os st) := by
  unfold App.check_mounted
  split_ifs
  all_goals first
    | exact hinv
    | exact ⟨⟨fun _ => rfl, fun _ => rfl⟩, fun _ => rfl⟩

theorem mount_tracked_invariant (track_devices : List String) (scans : List ScanOs)
    (ps : List PartitionOs) :
    ∀ (st st2 : AppState), mount_invariant st →
      App.mount_tracked track_devices scans ps st = some st2 → mount_invariant st2 := by
  induction ps with
  | nil =>
    intro st st2 hinv h
    simp only [App.mount_tracked, Option.some.injEq] at h
    rw [← h]; exact hinv
  | cons p rest ih =>
    intro st st2 hinv h
    rw [App.mount_tracked] at h
    by_cases h1 : (p.devname == "") = true
    · rw [if_pos h1] at h; exact ih st st2 hinv h
    · rw [if_neg h1] at h
      have hdn : p.devname ≠ "" := by simpa using h1
      by_cases h2 : (!is_tracked track_devices p.devname) = true
      · rw [if_pos h2] at h; exact ih st st2 hinv h
      · rw [if_neg h2] at h
        by_cases h3 : (p.existing_mountpoint != "") = true
        · rw [if_pos h3] at h
          refine scan_current_mount_invariant scans _ st2 ?_ ?_ h
          · exact hdn
          · simpa using h3
        · rw [if_neg h3] at h
          by_cases h4 : (p.mount_result == 0) = true
          · rw [if_pos h4] at h
            refine scan_current_mount_invariant scans _ st2 ?_ ?_ h
            · exact hdn
            · show "/tmp/__autosoitin_mnt" ≠ ""
              decide
          · rw [if_neg h4] at h; exact ih st st2 hinv h

theorem handle_changed_partitions_invariant (track_devices : List String) (os : ChangedOs)
    (st st2 : AppState) (hinv : mount_invariant st)
    (h : App.handle_changed_partitions track_devices os st = some st2) :
    mount_invariant st2 := by
  have hc := check_mounted_invariant os st hinv
  unfold App.handle_changed_partitions at h
  split_ifs at h
  · cases h; exact hc
  · cases h; exact hc
  · exact mount_tracked_invariant track_devices os.scans os.partitions _ st2 hc h

theorem run_op_invariant (track_devices : List String) (op : Op) (st st2 : AppState)
    (hinv : mount_invariant st) (h : App.run_op track_devices op st = some st2) :
    mount_invariant st2 := by
  cases op with
  | changed_partitions os =>
    exact handle_changed_partitions_invariant track_devices os st st2 hinv h
  | control_next os scans =>
    simp only [App.run_op] at h
    cases hc : handle_control_next st.current_media_content st.current_cursor with
    | none => rw [hc] at h; cases h
    | some c =>
      rw [hc] at h
      simp only at h
      refine refresh_track_invariant os scans _ st2 ?_ h
      exact hinv
  | control_prev os scans =>
    simp only [App.run_op] at h
    cases hc : handle_control_prev st.current_media_content st.current_cursor with
    | none => rw [hc] at h; cases h
    | some c =>
      rw [hc] at h
      simp only at h
      refine refresh_track_invariant os scans _ st2 ?_ h
      exact hinv
  | control_nextalbum os scans =>
    simp only [App.run_op] at h
    split at h
    · cases h
    · refine refresh_track_invariant os scans _ st2 ?_ h
      exact hinv
  | control_prevalbum os scans =>
    simp only [App.run_op] at h
    split at h
    · cases h
    · refine refresh_track_invariant os scans _ st2 ?_ h
      exact hinv
  | refresh os scans => exact refresh_track_invariant os scans st st2 hinv h
  | start_at_cursor ok os scans =>
    simp only [App.run_op, App.force_start_at_cursor] at h
    split at h
    · cases h
    · split_ifs at h
      exact refresh_track_invariant os scans st st2 hinv h
  | set_cursors current last =>
    simp only [App.run_op, Option.some.injEq] at h
    rw [← h]; exact hinv

/-- C14: every state reached from the initial state (no device, no path, empty catalog) by a
sequence of `handle_changed_partitions` calls and cursor and refresh operations, whatever
the operating system answers, satisfies: `current_mount_device` is empty if and only if
`current_mount_path` is empty, and without a device the catalog has no albums. -/
theorem mount_state_invariant (track_devices : List String) (ops : List Op) (st : AppState)
    (h : App.run_ops track_devices ops AppState.initial = some st) :
    (st.current_mount_device = "" ↔ st.current_mount_path = "") ∧
    (st.current_mount_device = "" → st.current_media_content.albums = []) := by
  have gen : ∀ (ops : List Op) (s s2 : AppState), mount_invariant s →
      App.run_ops track_devices ops s = some s2 → mount_invariant s2 := by
    intro ops
    induction ops with
    | nil =>
      intro s s2 hinv h
      simp only [App.run_ops, Option.some.injEq] at h
      rw [← h]; exact hinv
    | cons op rest ih =>
      intro s s2 hinv h
      rw [App.run_ops] at h
      cases hop : App.run_op track_devices op s with
      | none => rw [hop] at h; cases h
      | some s1 =>
        rw [hop] at h
        exact ih s1 s2 (run_op_invariant track_devices op s s1 hinv hop) h
  exact gen ops AppState.initial st ⟨⟨fun _ => rfl, fun _ => rfl⟩, fun _ => rfl⟩ h

/-- Witness of C14: the partition `sda1` matches the tracked name `sd`, is mounted and scanned
(one album of one track); the state reached has a device, a path and that album. -/
theorem mount_state_invariant_witness :
    App.run_ops ["sd"]
        [Op.changed_partitions
          { now := 100, partition_exists := false, umount_result := 0, device_mountpoint := "",
            partitions_readable := true,
            partitions := [{ devname := "sda1", existing_mountpoint := "", mount_result := 0 }],
            scans := [{ scanned := [{ name := "root", tracks := [⟨"/tmp/__autosoitin_mnt/a.mp3", "a"⟩] }],
                        loadfile_ok := true,
                        refresh := { playing_path := none, loadfile_ok := true,
                                     track_exists := true } }] }]
        AppState.initial
      = some { AppState.initial with
          current_mount_device := "sda1", current_mount_path := "/tmp/__autosoitin_mnt",
          current_media_content :=
            { albums := [{ name := "root", tracks := [⟨"/tmp/__autosoitin_mnt/a.mp3", "a"⟩] }] } } ∧
    ((("sda1" : String) = "" ↔ ("/tmp/__autosoitin_mnt" : String) = "") ∧
     (("sda1" : String) = "" →
        [({ name := "root", tracks := [⟨"/tmp/__autosoitin_mnt/a.mp3", "a"⟩] } : Album)] = [])) :=
  have h : App.run_ops ["sd"]
        [Op.changed_partitions
          { now := 100, partition_exists := false, umount_result := 0, device_mountpoint := "",
            partitions_readable := true,
            partitions := [{ devname := "sda1", existing_mountpoint := "", mount_result := 0 }],
            scans := [{ scanned := [{ name := "root", tracks := [⟨"/tmp/__autosoitin_mnt/a.mp3", "a"⟩] }],
                        loadfile_ok := true,
                        refresh := { playing_path := none, loadfile_ok := true,
                                     track_exists := true } }] }]
        AppState.initial
      = some { AppState.initial with
          current_mount_device := "sda1", current_mount_path := "/tmp/__autosoitin_mnt",
          current_media_content :=
            { albums := [{ name := "root", tracks := [⟨"/tmp/__autosoitin_mnt/a.mp3", "a"⟩] }] } } :=
    by rfl
  ⟨h, mount_state_invariant ["sd"] _ _ h⟩

/-- The unmount path of `handle_changed_partitions`: from a mounted state with a catalog, a
vanished partition and a successful `umount` lead to the state without device, path and
albums; a failed `umount` leaves all three and records the time of the failure. -/
theorem unmount_example :
    App.handle_changed_partitions ["sd"]
        { now := 200, partition_exists := false, umount_result := 0, device_mountpoint := "",
          partitions_readable := true, partitions := [], scans := [] }
        { AppState.initial with
          current_mount_device := "sda1", current_mount_path := "/tmp/__autosoitin_mnt",
          current_media_content :=
            { albums := [{ name := "root", tracks := [⟨"/tmp/__autosoitin_mnt/a.mp3", "a"⟩] }] } }
      = some AppState.initial ∧
    App.handle_changed_partitions ["sd"]
        { now := 200, partition_exists := false, umount_result := -1, device_mountpoint := "",
          partitions_readable := true, partitions := [], scans := [] }
        { AppState.initial with
          current_mount_device := "sda1", current_mount_path := "/tmp/__autosoitin_mnt",
          current_media_content :=
            { albums := [{ name := "root", tracks := [⟨"/tmp/__autosoitin_mnt/a.mp3", "a"⟩] }] } }
      = some { AppState.initial with
          current_mount_device := "sda1", current_mount_path := "/tmp/__autosoitin_mnt",
          current_media_content :=
            { albums := [{ name := "root", tracks := [⟨"/tmp/__autosoitin_mnt/a.mp3", "a"⟩] }] },
          umount_last_failed_timestamp := 200 } :=
  ⟨by rfl, by rfl⟩

/-! ## A command that fills the buffer: claim C15 -/

/-- A command of exactly `T_buf_size` bytes (no terminator, no byte 127, no zero byte) and a
terminator, fed to a fresh accumulator: `overflow` stays unset, the terminator is answered
with `true` and `ready` is set, but the buffer then holds the command and no zero byte, so
`command()` is not terminated inside the buffer. -/
theorem feed_full_buffer (T t : Nat) (s : List Nat) (hT : 0 < T) (hlen : s.length = T)
    (hs : ∀ b ∈ s, b ≠ 10 ∧ b ≠ 13 ∧ b ≠ 127 ∧ b ≠ 0) (ht : t = 10 ∨ t = 13) :
    CommandAccumulator.feed T (CommandAccumulator.reset T) (s ++ [t])
      = (⟨s, T, false, true⟩, List.replicate T false ++ [true]) ∧
    CommandAccumulator.command ⟨s, T, false, true⟩ = none := by
  have htt : is_terminator t = true := by
    rcases ht with h | h <;> subst h <;> simp [is_terminator]
  have hst := CommandAccumulator.feed_store_reset T s (fun b hb => (hs b hb).2.2.1)
    (fun b hb => by
      have h := hs b hb
      simp [is_terminator, h.1, h.2.1]) (Nat.le_of_eq hlen)
  have hz : T - s.length = 0 := by omega
  rw [hz, List.replicate_zero, List.append_nil, hlen] at hst
  have hfin := CommandAccumulator.put_char_terminator_ready T t ⟨s, T, false, false⟩ htt rfl rfl
    (Nat.pos_iff_ne_zero.mp hT)
  constructor
  · rw [CommandAccumulator.feed_append, hst]
    simp only [CommandAccumulator.feed, hfin]
  · have h0 : (0 : Nat) ∉ s := fun h => (hs 0 h).2.2.2 rfl
    simp [CommandAccumulator.command, h0]

/-- C15 fails on the code: with `T_buf_size = 100`, as `main.cpp` instantiates the framer, a
command of 100 letters `a` and `\n` sets no overflow and is answered with `true`, but all 100
bytes of the buffer are then non-zero: `command()` finds no zero byte inside the buffer and
reads past its end instead of returning the command. With 99 letters the command is
returned. -/
theorem framer_full_buffer_unterminated :
    CommandAccumulator.feed 100 (CommandAccumulator.reset 100) (List.replicate 100 97 ++ [10])
      = (⟨List.replicate 100 97, 100, false, true⟩, List.replicate 100 false ++ [true]) ∧
    CommandAccumulator.command ⟨List.replicate 100 97, 100, false, true⟩ = none ∧
    (CommandAccumulator.feed 100 (CommandAccumulator.reset 100)
        (List.replicate 99 97 ++ [10])).1.command = some (List.replicate 99 97) := by
  have hs : ∀ (k : Nat), ∀ b ∈ List.replicate k 97, b ≠ 10 ∧ b ≠ 13 ∧ b ≠ 127 ∧ b ≠ 0 := by
    intro k b hb
    rw [List.eq_of_mem_replicate hb]
    decide
  have h1 := feed_full_buffer 100 10 (List.replicate 100 97) (by decide) (by simp) (hs 100)
    (Or.inl rfl)
  have hst := CommandAccumulator.feed_store_reset 100 (List.replicate 99 97)
    (fun b hb => (hs 99 b hb).2.2.1)
    (fun b hb => by
      have h := hs 99 b hb
      simp [is_terminator, h.1, h.2.1]) (by simp)
  have hfin := CommandAccumulator.put_char_terminator_ready 100 10
    ⟨List.replicate 99 97 ++ List.replicate (100 - (List.replicate 99 97).length) 0,
      (List.replicate 99 97).length, false, false⟩ (by decide) rfl rfl (by simp)
  refine ⟨h1.1, h1.2, ?_⟩
  rw [CommandAccumulator.feed_append, hst]
  simp only [CommandAccumulator.feed, hfin]
  exact CommandAccumulator.command_of_stored (List.replicate 99 97)
    (100 - (List.replicate 99 97).length) (fun b hb => (hs 99 b hb).2.2.2) (by simp) _ _ _

/-! ## Playback order: lemmas for claim C16 -/

theorem get_total_tracks_eq_sum (mc : MediaContent) :
    get_total_tracks mc = (mc.albums.map (fun album => album.tracks.length)).sum := by
  unfold get_total_tracks
  have gen : ∀ (l : List Album) (acc : Nat),
      l.foldl (fun total a => total + a.tracks.length) acc
        = acc + (l.map (fun album => album.tracks.length)).sum := by
    intro l
    induction l with
    | nil => intro acc; simp
    | cons a l ih => intro acc; simp [ih]; omega
  simpa using gen mc.albums 0

theorem album_offset_zero (mc : MediaContent) : album_offset mc 0 = 0 := by
  simp [album_offset]

theorem album_offset_succ (mc : MediaContent) (a : Nat) (album : Album)
    (h : mc.albums[a]? = some album) :
    album_offset mc (a + 1) = album_offset mc a + album.tracks.length := by
  unfold album_offset
  rw [List.take_succ, h]
  simp

theorem album_offset_length (mc : MediaContent) :
    album_offset mc mc.albums.length = get_total_tracks mc := by
  rw [get_total_tracks_eq_sum]
  unfold album_offset
  rw [List.take_length]

theorem album_offset_mono (mc : MediaContent) (a b : Nat) (h : a ≤ b) :
    album_offset mc a ≤ album_offset mc b := by
  induction b with
  | zero =>
    have : a = 0 := by omega
    rw [this]
  | succ b ih =>
    by_cases hab : a = b + 1
    · rw [hab]
    · have h1 := ih (by omega)
      have h2 : album_offset mc b ≤ album_offset mc (b + 1) := by
        unfold album_offset
        rw [List.take_succ]
        simp
      omega

theorem album_offset_le_total (mc : MediaContent) (a : Nat) (h : a ≤ mc.albums.length) :
    album_offset mc a ≤ get_total_tracks mc := by
  rw [← album_offset_length]
  exact album_offset_mono mc a _ h

/-- An in-range cursor in terms of natural numbers. -/
theorem cursor_in_range_nat (mc : MediaContent) (cursor : PlayCursor) :
    cursor_in_range mc cursor ↔
      ∃ (a t : Nat) (album : Album), cursor.album_i = (a : Int) ∧ cursor.track_i = (t : Int) ∧
        mc.albums[a]? = some album ∧ t < album.tracks.length := by
  rw [cursor_in_range_iff]
  constructor
  · rintro ⟨album, ha0, ha1, halb, ht0, ht1⟩
    refine ⟨cursor.album_i.toNat, cursor.track_i.toNat, album, by omega, by omega, ?_, by omega⟩
    simpa [elem_at, ha0] using halb
  · rintro ⟨a, t, album, ha, ht, halb, hlt⟩
    have hlen : a < mc.albums.length := (List.getElem?_eq_some_iff.mp halb).1
    refine ⟨album, by omega, by omega, ?_, by omega, by omega⟩
    rw [ha]
    simpa [elem_at] using halb

theorem cursor_pos_nat (mc : MediaContent) (cursor : PlayCursor) (a t : Nat)
    (ha : cursor.album_i = (a : Int)) (ht : cursor.track_i = (t : Int)) :
    cursor_pos mc cursor = album_offset mc a + t := by
  unfold cursor_pos
  rw [ha, ht]
  simp

theorem cursor_pos_lt_next_offset (mc : MediaContent) (cursor : PlayCursor) (a t : Nat)
    (album : Album) (ha : cursor.album_i = (a : Int)) (ht : cursor.track_i = (t : Int))
    (halb : mc.albums[a]? = some album) (hlt : t < album.tracks.length) :
    album_offset mc a ≤ cursor_pos mc cursor ∧
    cursor_pos mc cursor < album_offset mc (a + 1) ∧
    album_offset mc (a + 1) ≤ get_total_tracks mc := by
  have hlen : a < mc.albums.length := (List.getElem?_eq_some_iff.mp halb).1
  rw [cursor_pos_nat mc cursor a t ha ht, album_offset_succ mc a album halb]
  have := album_offset_le_total mc (a + 1) (by omega)
  rw [album_offset_succ mc a album halb] at this
  omega

theorem cursor_pos_lt_total (mc : MediaContent) (cursor : PlayCursor)
    (h : cursor_in_range mc cursor) : cursor_pos mc cursor < get_total_tracks mc := by
  obtain ⟨a, t, album, ha, ht, halb, hlt⟩ := (cursor_in_range_nat mc cursor).mp h
  have := cursor_pos_lt_next_offset mc cursor a t album ha ht halb hlt
  omega

/-- In-range cursors at the same position address the same track. -/
theorem cursor_pos_injective (mc : MediaContent) (c d : PlayCursor)
    (hc : cursor_in_range mc c) (hd : cursor_in_range mc d)
    (h : cursor_pos mc c = cursor_pos mc d) :
    c.album_i = d.album_i ∧ c.track_i = d.track_i := by
  obtain ⟨a, t, A, ha, ht, hA, hlt⟩ := (cursor_in_range_nat mc c).mp hc
  obtain ⟨b, u, B, hb, hu, hB, hlu⟩ := (cursor_in_range_nat mc d).mp hd
  have h1 := cursor_pos_lt_next_offset mc c a t A ha ht hA hlt
  have h2 := cursor_pos_lt_next_offset mc d b u B hb hu hB hlu
  have hab : a = b := by
    rcases Nat.lt_trichotomy a b with hlt' | heq | hgt
    · have := album_offset_mono mc (a + 1) b (by omega)
      omega
    · exact heq
    · have := album_offset_mono mc (b + 1) a (by omega)
      omega
  subst hab
  rw [cursor_pos_nat mc c a t ha ht, cursor_pos_nat mc d a u hb hu] at h
  have htu : t = u := by omega
  subst htu
  exact ⟨by rw [ha, hb], by rw [ht, hu]⟩

/-- The next-track step from an in-range cursor, by cases. -/
theorem next_step_cases (mc : MediaContent) (cursor : PlayCursor) (album : Album)
    (ha0 : 0 ≤ cursor.album_i) (ha1 : cursor.album_i < (mc.albums.length : Int))
    (halb : elem_at mc.albums cursor.album_i = some album)
    (ht0 : 0 ≤ cursor.track_i) :
    handle_control_next mc cursor = some
      (if cursor.track_i + 1 < (album.tracks.length : Int)
        then { album_i := cursor.album_i, track_i := cursor.track_i + 1, time_pos := 0 }
        else { album_i := if cursor.album_i + 1 ≥ (mc.albums.length : Int) then 0
                          else cursor.album_i + 1,
               track_i := 0, time_pos := 0 }) := by
  have hne : mc.albums ≠ [] := by
    intro h; rw [h] at ha1; simp at ha1; omega
  obtain ⟨a2, album2, _, _, hsame, halb2, heq⟩ := cursor_bound_wrap_eq mc
    { cursor with track_i := cursor.track_i + 1, time_pos := 0 } hne
  have ha2 : a2 = cursor.album_i := hsame ha0 ha1
  subst ha2
  have hal : album2 = album := by
    have : some album2 = some album := by rw [← halb2, ← halb]
    exact Option.some.inj this
  subst hal
  unfold handle_control_next
  rw [heq]
  have hnn : ¬ (cursor.track_i + 1 < 0) := by omega
  simp only [hnn, if_false]
  by_cases hlt : cursor.track_i + 1 < (album2.tracks.length : Int)
  · have hge : ¬ (cursor.track_i + 1 ≥ (album2.tracks.length : Int)) := by omega
    rw [if_neg hge, if_pos hlt]
  · have hge : cursor.track_i + 1 ≥ (album2.tracks.length : Int) := by omega
    rw [if_pos hge, if_neg hlt]

/-- The previous-track step from an in-range cursor, by cases. -/
theorem prev_step_cases (mc : MediaContent) (cursor : PlayCursor) (album : Album)
    (ha0 : 0 ≤ cursor.album_i) (ha1 : cursor.album_i < (mc.albums.length : Int))
    (halb : elem_at mc.albums cursor.album_i = some album)
    (ht1 : cursor.track_i < (album.tracks.length : Int)) :
    handle_control_prev mc cursor =
      if 0 < cursor.track_i
      then some { album_i := cursor.album_i, track_i := cursor.track_i - 1, time_pos := 0 }
      else
        match elem_at mc.albums
          (if cursor.album_i - 1 < 0 then (mc.albums.length : Int) - 1
           else cursor.album_i - 1) with
        | none => none
        | some album2 =>
          some { album_i := if cursor.album_i - 1 < 0 then (mc.albums.length : Int) - 1
                            else cursor.album_i - 1,
                 track_i := (album2.tracks.length : Int) - 1, time_pos := 0 } := by
  have hne : mc.albums ≠ [] := by
    intro h; rw [h] at ha1; simp at ha1; omega
  obtain ⟨a2, album2, _, _, hsame, halb2, heq⟩ := cursor_bound_wrap_eq mc
    { cursor with track_i := cursor.track_i - 1, time_pos := 0 } hne
  have ha2 : a2 = cursor.album_i := hsame ha0 ha1
  subst ha2
  have hal : album2 = album := by
    have : some album2 = some album := by rw [← halb2, ← halb]
    exact Option.some.inj this
  subst hal
  unfold handle_control_prev
  rw [heq]
  by_cases hpos : 0 < cursor.track_i
  · have hnn : ¬ (cursor.track_i - 1 < 0) := by omega
    have hge : ¬ (cursor.track_i - 1 ≥ (album2.tracks.length : Int)) := by omega
    simp only [hnn, if_false, hge, hpos, if_true]
  · have hn : cursor.track_i - 1 < 0 := by omega
    simp only [hn, if_true, hpos, if_false]

/-- On a catalog without empty album the next-track step maps an in-range cursor to the
in-range cursor at the following position, the first one after the last. -/
theorem next_step_pos (mc : MediaContent) (cursor : PlayCursor)
    (htr : ∀ a ∈ mc.albums, a.tracks ≠ []) (hin : cursor_in_range mc cursor) :
    ∃ c, handle_control_next mc cursor = some c ∧ cursor_in_range mc c ∧
      cursor_pos mc c = (cursor_pos mc cursor + 1) % get_total_tracks mc := by
  obtain ⟨album0, ha0, ha1, halb0, ht0, _⟩ := (cursor_in_range_iff mc cursor).mp hin
  obtain ⟨a, t, album, ha, ht, halb, hlt⟩ := (cursor_in_range_nat mc cursor).mp hin
  have hsame : album0 = album := by
    have h1 : elem_at mc.albums cursor.album_i = some album := by
      rw [ha]; simpa [elem_at] using halb
    have : some album0 = some album := by rw [← halb0, ← h1]
    exact Option.some.inj this
  subst hsame
  have hlen : a < mc.albums.length := (List.getElem?_eq_some_iff.mp halb).1
  have hpos := cursor_pos_nat mc cursor a t ha ht
  have hoff := album_offset_succ mc a album0 halb
  have hstep := next_step_cases mc cursor album0 ha0 ha1 halb0 ht0
  have hnonempty : ∀ (b : Nat) (B : Album), mc.albums[b]? = some B → 0 < B.tracks.length := by
    intro b B hB
    obtain ⟨hb, hBe⟩ := List.getElem?_eq_some_iff.mp hB
    exact List.length_pos.mpr (htr B (hBe ▸ List.getElem_mem hb))
  by_cases hcase : cursor.track_i + 1 < (album0.tracks.length : Int)
  · rw [if_pos hcase] at hstep
    refine ⟨_, hstep, ?_, ?_⟩
    · rw [cursor_in_range_nat]
      exact ⟨a, t + 1, album0, ha, by simp only; push_cast; omega, halb, by omega⟩
    · have hp2 := cursor_pos_nat mc
        { album_i := cursor.album_i, track_i := cursor.track_i + 1, time_pos := 0 } a (t + 1)
        ha (by simp only; push_cast; omega)
      have hb := cursor_pos_lt_next_offset mc
        { album_i := cursor.album_i, track_i := cursor.track_i + 1, time_pos := 0 } a (t + 1)
        album0 ha (by simp only; push_cast; omega) halb (by omega)
      rw [Nat.mod_eq_of_lt (by omega)]
      omega
  · rw [if_neg hcase] at hstep
    have hlast : t + 1 = album0.tracks.length := by omega
    by_cases hwrap : cursor.album_i + 1 ≥ (mc.albums.length : Int)
    · rw [if_pos hwrap] at hstep
      have han : a + 1 = mc.albums.length := by omega
      obtain ⟨B, hB⟩ : ∃ B, mc.albums[0]? = some B :=
        ⟨mc.albums[0], List.getElem?_eq_getElem (by omega)⟩
      have hBpos := hnonempty 0 B hB
      refine ⟨_, hstep, ?_, ?_⟩
      · rw [cursor_in_range_nat]
        exact ⟨0, 0, B, rfl, rfl, hB, hBpos⟩
      · have hp2 := cursor_pos_nat mc { album_i := 0, track_i := 0, time_pos := 0 } 0 0 rfl rfl
        have htot := album_offset_length mc
        rw [← han, hoff] at htot
        have : cursor_pos mc cursor + 1 = get_total_tracks mc := by omega
        rw [this, Nat.mod_self, hp2, album_offset_zero]
    · rw [if_neg hwrap] at hstep
      have han : a + 1 < mc.albums.length := by omega
      obtain ⟨B, hB⟩ : ∃ B, mc.albums[a + 1]? = some B :=
        ⟨mc.albums[a + 1], List.getElem?_eq_getElem han⟩
      have hBpos := hnonempty (a + 1) B hB
      have hai : cursor.album_i + 1 = ((a + 1 : Nat) : Int) := by push_cast; omega
      refine ⟨_, hstep, ?_, ?_⟩
      · rw [cursor_in_range_nat]
        exact ⟨a + 1, 0, B, hai, rfl, hB, hBpos⟩
      · have hp2 := cursor_pos_nat mc
          { album_i := cursor.album_i + 1, track_i := 0, time_pos := 0 } (a + 1) 0 hai rfl
        have hb := cursor_pos_lt_next_offset mc
          { album_i := cursor.album_i + 1, track_i := 0, time_pos := 0 } (a + 1) 0 B hai rfl hB
          hBpos
        rw [Nat.mod_eq_of_lt (by omega)]
        omega

/-- On a catalog without empty album the previous-track step maps an in-range cursor to the
in-range cursor at the preceding position, the last one before the first. -/
theorem prev_step_pos (mc : MediaContent) (cursor : PlayCursor)
    (htr : ∀ a ∈ mc.albums, a.tracks ≠ []) (hin : cursor_in_range mc cursor) :
    ∃ c, handle_control_prev mc cursor = some c ∧ cursor_in_range mc c ∧
      (cursor_pos mc c + 1) % get_total_tracks mc = cursor_pos mc cursor := by
  obtain ⟨album0, ha0, ha1, halb0, _, ht1⟩ := (cursor_in_range_iff mc cursor).mp hin
  obtain ⟨a, t, album, ha, ht, halb, hlt⟩ := (cursor_in_range_nat mc cursor).mp hin
  have hsame : album0 = album := by
    have h1 : elem_at mc.albums cursor.album_i = some album := by
      rw [ha]; simpa [elem_at] using halb
    have : some album0 = some album := by rw [← halb0, ← h1]
    exact Option.some.inj this
  subst hsame
  have hlen : a < mc.albums.length := (List.getElem?_eq_some_iff.mp halb).1
  have hpos := cursor_pos_nat mc cursor a t ha ht
  have hstep := prev_step_cases mc cursor album0 ha0 ha1 halb0 ht1
  have hbound := cursor_pos_lt_next_offset mc cursor a t album0 ha ht halb hlt
  by_cases hcase : 0 < cursor.track_i
  · rw [if_pos hcase] at hstep
    have htc : cursor.track_i - 1 = ((t - 1 : Nat) : Int) := by omega
    refine ⟨_, hstep, ?_, ?_⟩
    · rw [cursor_in_range_nat]
      exact ⟨a, t - 1, album0, ha, htc, halb, by omega⟩
    · have hp2 := cursor_pos_nat mc
        { album_i := cursor.album_i, track_i := cursor.track_i - 1, time_pos := 0 } a (t - 1)
        ha htc
      have : cursor_pos mc
          { album_i := cursor.album_i, track_i := cursor.track_i - 1, time_pos := 0 } + 1
          = cursor_pos mc cursor := by omega
      rw [this, Nat.mod_eq_of_lt (by omega)]
  · rw [if_neg hcase] at hstep
    have ht0 : t = 0 := by omega
    obtain ⟨p, hp, hpn⟩ : ∃ p : Nat,
        (if cursor.album_i - 1 < 0 then (mc.albums.length : Int) - 1 else cursor.album_i - 1)
          = (p : Int) ∧ p = (if a = 0 then mc.albums.length - 1 else a - 1) := by
      refine ⟨if a = 0 then mc.albums.length - 1 else a - 1, ?_, rfl⟩
      split_ifs <;> omega
    have hplen : p < mc.albums.length := by
      rw [hpn]; split_ifs <;> omega
    obtain ⟨B, hB⟩ : ∃ B, mc.albums[p]? = some B :=
      ⟨mc.albums[p], List.getElem?_eq_getElem hplen⟩
    have hBpos : 0 < B.tracks.length := by
      obtain ⟨hb, hBe⟩ := List.getElem?_eq_some_iff.mp hB
      exact List.length_pos.mpr (htr B (hBe ▸ List.getElem_mem hb))
    have helem : elem_at mc.albums (p : Int) = some B := by
      simpa [elem_at] using hB
    rw [hp, helem] at hstep
    simp only at hstep
    have htc : (B.tracks.length : Int) - 1 = ((B.tracks.length - 1 : Nat) : Int) := by omega
    refine ⟨_, hstep, ?_, ?_⟩
    · rw [cursor_in_range_nat]
      exact ⟨p, B.tracks.length - 1, B, rfl, htc, hB, by omega⟩
    · have hp2 := cursor_pos_nat mc
        { album_i := (p : Int), track_i := (B.tracks.length : Int) - 1, time_pos := 0 }
        p (B.tracks.length - 1) rfl htc
      have hoffp := album_offset_succ mc p B hB
      by_cases hz : a = 0
      · have hpn2 : p + 1 = mc.albums.length := by
          rw [hpn, if_pos hz]; omega
        have htot := album_offset_length mc
        rw [← hpn2, hoffp] at htot
        have h1 : cursor_pos mc
            { album_i := (p : Int), track_i := (B.tracks.length : Int) - 1, time_pos := 0 } + 1
            = get_total_tracks mc := by omega
        have h2 : cursor_pos mc cursor = 0 := by
          rw [hpos, hz, album_offset_zero, ht0]
        rw [h1, Nat.mod_self, h2]
      · have hpn2 : p + 1 = a := by
          rw [hpn, if_neg hz]; omega
        rw [hpn2] at hoffp
        have h1 : cursor_pos mc
            { album_i := (p : Int), track_i := (B.tracks.length : Int) - 1, time_pos := 0 } + 1
            = cursor_pos mc cursor := by omega
        rw [h1, Nat.mod_eq_of_lt (by omega)]

/-- After `k` next-track steps from an in-range cursor the cursor is in range and `k`
positions further, counted cyclically. -/
theorem next_iter_pos (mc : MediaContent) (cursor : PlayCursor)
    (htr : ∀ a ∈ mc.albums, a.tracks ≠ []) (hin : cursor_in_range mc cursor) (k : Nat) :
    ∃ c, next_iter mc k cursor = some c ∧ cursor_in_range mc c ∧
      cursor_pos mc c = (cursor_pos mc cursor + k) % get_total_tracks mc := by
  induction k with
  | zero =>
    refine ⟨cursor, rfl, hin, ?_⟩
    rw [Nat.add_zero, Nat.mod_eq_of_lt (cursor_pos_lt_total mc cursor hin)]
  | succ k ih =>
    obtain ⟨c, hc, hcin, hcpos⟩ := ih
    obtain ⟨c2, hc2, hc2in, hc2pos⟩ := next_step_pos mc c htr hcin
    refine ⟨c2, ?_, hc2in, ?_⟩
    · rw [next_iter, hc]
      exact hc2
    · rw [hc2pos, hcpos]
      have := Nat.ModEq.add_right 1
        (Nat.mod_modEq (cursor_pos mc cursor + k) (get_total_tracks mc))
      exact this

/-! ## Playback order: claim C16 -/

/-- C16: on a catalog with at least one album in which every album has at least one track,
with `T = get_total_tracks`, from every in-range cursor: `T` next-track steps lead back to the
same `(album_i, track_i)`; the cursors after `0 .. T-1` steps are in range and pairwise
different positions, and every in-range position is among them; the previous-track step
undoes the next-track step and the next-track step undoes the previous-track step. -/
theorem playback_cycle (mc : MediaContent) (cursor : PlayCursor)
    (hne : mc.albums ≠ []) (htr : ∀ a ∈ mc.albums, a.tracks ≠ [])
    (hin : cursor_in_range mc cursor) :
    (∃ c, next_iter mc (get_total_tracks mc) cursor = some c ∧
      c.album_i = cursor.album_i ∧ c.track_i = cursor.track_i) ∧
    (∀ i, i < get_total_tracks mc →
      ∃ c, next_iter mc i cursor = some c ∧ cursor_in_range mc c) ∧
    (∀ i j ci cj, i < j → j < get_total_tracks mc →
      next_iter mc i cursor = some ci → next_iter mc j cursor = some cj →
      ¬ (ci.album_i = cj.album_i ∧ ci.track_i = cj.track_i)) ∧
    (∀ d, cursor_in_range mc d →
      ∃ i c, i < get_total_tracks mc ∧ next_iter mc i cursor = some c ∧
        c.album_i = d.album_i ∧ c.track_i = d.track_i) ∧
    (∃ c1 c2, handle_control_next mc cursor = some c1 ∧ handle_control_prev mc c1 = some c2 ∧
      c2.album_i = cursor.album_i ∧ c2.track_i = cursor.track_i) ∧
    (∃ c1 c2, handle_control_prev mc cursor = some c1 ∧ handle_control_next mc c1 = some c2 ∧
      c2.album_i = cursor.album_i ∧ c2.track_i = cursor.track_i) := by
  have _hne := hne
  have hp := cursor_pos_lt_total mc cursor hin
  refine ⟨?_, ?_, ?_, ?_, ?_, ?_⟩
  · obtain ⟨c, hc, hcin, hcpos⟩ := next_iter_pos mc cursor htr hin (get_total_tracks mc)
    refine ⟨c, hc, ?_⟩
    apply cursor_pos_injective mc c cursor hcin hin
    rw [hcpos, Nat.add_mod_right, Nat.mod_eq_of_lt hp]
  · intro i _
    obtain ⟨c, hc, hcin, _⟩ := next_iter_pos mc cursor htr hin i
    exact ⟨c, hc, hcin⟩
  · intro i j ci cj hij hj hi' hj' heq
    obtain ⟨c, hc, _, hcpos⟩ := next_iter_pos mc cursor htr hin i
    obtain ⟨d, hd, _, hdpos⟩ := next_iter_pos mc cursor htr hin j
    have e1 : ci = c := Option.some.inj (hi'.symm.trans hc)
    have e2 : cj = d := Option.some.inj (hj'.symm.trans hd)
    subst e1 e2
    have hpos : cursor_pos mc ci = cursor_pos mc cj := by
      unfold cursor_pos
      rw [heq.1, heq.2]
    rw [hcpos, hdpos] at hpos
    have hmod : i % get_total_tracks mc = j % get_total_tracks mc :=
      Nat.ModEq.add_left_cancel' (cursor_pos mc cursor) hpos
    rw [Nat.mod_eq_of_lt (by omega), Nat.mod_eq_of_lt hj] at hmod
    omega
  · intro d hd
    have hq := cursor_pos_lt_total mc d hd
    obtain ⟨c, hc, hcin, hcpos⟩ := next_iter_pos mc cursor htr hin
      ((cursor_pos mc d + get_total_tracks mc - cursor_pos mc cursor) % get_total_tracks mc)
    refine ⟨_, c, Nat.mod_lt _ (by omega), hc, ?_⟩
    apply cursor_pos_injective mc c d hcin hd
    rw [hcpos, Nat.add_mod_mod]
    have : cursor_pos mc cursor
        + (cursor_pos mc d + get_total_tracks mc - cursor_pos mc cursor)
        = cursor_pos mc d + get_total_tracks mc := by omega
    rw [this, Nat.add_mod_right, Nat.mod_eq_of_lt hq]
  · obtain ⟨c1, h1, h1in, h1pos⟩ := next_step_pos mc cursor htr hin
    obtain ⟨c2, h2, h2in, h2pos⟩ := prev_step_pos mc c1 htr h1in
    refine ⟨c1, c2, h1, h2, ?_⟩
    apply cursor_pos_injective mc c2 cursor h2in hin
    have hq := cursor_pos_lt_total mc c2 h2in
    rw [h1pos] at h2pos
    have hmod : cursor_pos mc c2 % get_total_tracks mc
        = cursor_pos mc cursor % get_total_tracks mc :=
      Nat.ModEq.add_right_cancel' 1 h2pos
    rw [Nat.mod_eq_of_lt hq, Nat.mod_eq_of_lt hp] at hmod
    exact hmod
  · obtain ⟨c1, h1, h1in, h1pos⟩ := prev_step_pos mc cursor htr hin
    obtain ⟨c2, h2, h2in, h2pos⟩ := next_step_pos mc c1 htr h1in
    refine ⟨c1, c2, h1, h2, ?_⟩
    apply cursor_pos_injective mc c2 cursor h2in hin
    rw [h2pos, h1pos]

/-- Witness of C16: track counts [2, 1], so `T = 3`, from the cursor (0, 1). -/
theorem playback_cycle_witness :
    (∃ c, next_iter
        { albums := [{ name := "A", tracks := [⟨"a1", "1"⟩, ⟨"a2", "2"⟩] },
                     { name := "B", tracks := [⟨"b1", "1"⟩] }] } 3
        { album_i := 0, track_i := 1, time_pos := 0 } = some c ∧
      c.album_i = 0 ∧ c.track_i = 1) ∧
    next_iter
        { albums := [{ name := "A", tracks := [⟨"a1", "1"⟩, ⟨"a2", "2"⟩] },
                     { name := "B", tracks := [⟨"b1", "1"⟩] }] } 1
        { album_i := 0, track_i := 1, time_pos := 0 }
      = some { album_i := 1, track_i := 0, time_pos := 0 } ∧
    next_iter
        { albums := [{ name := "A", tracks := [⟨"a1", "1"⟩, ⟨"a2", "2"⟩] },
                     { name := "B", tracks := [⟨"b1", "1"⟩] }] } 2
        { album_i := 0, track_i := 1, time_pos := 0 }
      = some { album_i := 0, track_i := 0, time_pos := 0 } :=
  ⟨(playback_cycle
      { albums := [{ name := "A", tracks := [⟨"a1", "1"⟩, ⟨"a2", "2"⟩] },
                   { name := "B", tracks := [⟨"b1", "1"⟩] }] }
      { album_i := 0, track_i := 1, time_pos := 0 } (by simp) (by simp) (by decide)).1,
   by decide, by decide⟩

end Opts
